import Mathlib

/-!
Verification of the response-normalization pipeline and tool wrappers of the
research-paper generator (`main_simple.py`, `tools.py`).

Text is modelled as `List Char` (Python `str` is a sequence of code points).
External services (the HTTP search call, the Wikipedia client, the NFKD
normalization table of `unicodedata`, and the fpdf PDF writer) are modelled
as explicit function parameters; everything else is translated directly from
the source.
-/

set_option maxRecDepth 20000

abbrev Str := List Char

def txt (x : String) : Str := x.toList

/-- The two brace characters, written by code point to keep literals plain. -/
def lbrace : Char := Char.ofNat 123

def rbrace : Char := Char.ofNat 125

/-- Whitespace as stripped by Python `str.strip()` (the ASCII whitespace
class; the exotic Unicode whitespace code points never arise here). -/
def pyWs (c : Char) : Bool :=
  c = ' ' || c = '\t' || c = '\n' || c = '\r' || c = '\x0b' || c = '\x0c'

def lstrip (t : Str) : Str := t.dropWhile pyWs

def rstrip (t : Str) : Str := (t.reverse.dropWhile pyWs).reverse

/-- Python `str.strip()`. -/
def pyStrip (t : Str) : Str := rstrip (lstrip t)

/-- `_strip_code_fences` from `main_simple.py`:
strip, drop a leading ```` ```json ````, then a leading ```` ``` ````, then a
trailing ```` ``` ````, then strip again. -/
def strip_code_fences (text : Str) : Str :=
  let t0 := pyStrip text
  let t1 := if txt ("```json") <+: t0 then t0.drop 7 else t0
  let t2 := if txt ("```") <+: t1 then t1.drop 3 else t1
  let t3 := if txt ("```") <:+ t2 then t2.take (t2.length - 3) else t2
  pyStrip t3

/-! ## The tolerant regex fallback of `generate_research`

`extract_string(key)` embeds `re.search(r'"key"\s*:\s*"([\s\S]*?)"\s*(,|})')`:
leftmost match position, and at that position the lazily shortest group.
`extract_list(key)` embeds `re.search(r'"key"\s*:\s*\[([\s\S]*?)\]')` followed
by `re.findall(r'"([\s\S]*?)"')` on the bracket group. -/

/-- Does the text start (after `\s*`) with `,` or the closing brace?  This is
the `"\s*(,|})` tail of the string pattern, checked after a candidate closing
quote. -/
def closeOk (t : Str) : Bool :=
  match t.dropWhile pyWs with
  | c :: _ => c = ',' || c = rbrace
  | [] => false

/-- Lazy scan for the group of `([\s\S]*?)"\s*(,|})`: the shortest prefix
whose following character is a quote satisfying `closeOk`. -/
def findClose : Str → Option Str
  | [] => none
  | c :: rest =>
    if c = '"' && closeOk rest then some []
    else (findClose rest).map (fun v => c :: v)

/-- Try the whole string pattern at this position of the text. -/
def matchAt (key t : Str) : Option Str :=
  match t with
  | [] => none
  | c :: r1 =>
    if c = '"' then
      if key.isPrefixOf r1 then
        match r1.drop key.length with
        | [] => none
        | c2 :: r2 =>
          if c2 = '"' then
            match r2.dropWhile pyWs with
            | [] => none
            | c3 :: r3 =>
              if c3 = ':' then
                match r3.dropWhile pyWs with
                | [] => none
                | c4 :: r4 => if c4 = '"' then findClose r4 else none
              else none
          else none
      else none
    else none

/-- `re.search` for the string pattern: first position where it matches. -/
def firstMatch (key : Str) : Str → Option Str
  | [] => none
  | c :: rest =>
    match matchAt key (c :: rest) with
    | some v => some v
    | none => firstMatch key rest

/-- `extract_string` from the fallback of `generate_research`. -/
def extract_string (key t : Str) : Str :=
  match firstMatch key t with
  | some v => pyStrip v
  | none => []

/-- Lazy scan for the group of `\[([\s\S]*?)\]`: everything up to the first
closing bracket. -/
def findBracketClose : Str → Option Str
  | [] => none
  | c :: rest =>
    if c = ']' then some []
    else (findBracketClose rest).map (fun v => c :: v)

/-- Try the list pattern `"key"\s*:\s*\[([\s\S]*?)\]` at this position. -/
def matchListAt (key t : Str) : Option Str :=
  match t with
  | [] => none
  | c :: r1 =>
    if c = '"' then
      if key.isPrefixOf r1 then
        match r1.drop key.length with
        | [] => none
        | c2 :: r2 =>
          if c2 = '"' then
            match r2.dropWhile pyWs with
            | [] => none
            | c3 :: r3 =>
              if c3 = ':' then
                match r3.dropWhile pyWs with
                | [] => none
                | c4 :: r4 => if c4 = '[' then findBracketClose r4 else none
              else none
          else none
      else none
    else none

def firstListMatch (key : Str) : Str → Option Str
  | [] => none
  | c :: rest =>
    match matchListAt key (c :: rest) with
    | some v => some v
    | none => firstListMatch key rest

/-- `re.findall(r'"([\s\S]*?)"', inner)`: the contents of consecutive
non-overlapping quote pairs.  The accumulator holds the chunk being read
(reversed) while inside a pair of quotes. -/
def qcAux : Str → Option Str → List Str
  | [], _ => []
  | c :: r, none => if c = '"' then qcAux r (some []) else qcAux r none
  | c :: r, some acc => if c = '"' then acc.reverse :: qcAux r none else qcAux r (some (c :: acc))

def quotedChunks (t : Str) : List Str := qcAux t none

/-- `extract_list` from the fallback of `generate_research`. -/
def extract_list (key t : Str) : List Str :=
  match firstListMatch key t with
  | some inner => (quotedChunks inner).map pyStrip
  | none => []

/-- The quoted field name `"key"` that opens every fragment either pattern
can match. -/
def qkey (key : Str) : Str := '"' :: (key ++ ['"'])

/-! ## Strict parse: `json.loads` followed by `ResearchResponse(**data)`

A recursive-descent JSON parser with a fuel parameter (the schema only ever
looks at strings, arrays and objects; numbers are kept as their raw text
since any number in a schema position fails validation anyway). -/

inductive Json where
  | jstr (v : Str)
  | jnum (raw : Str)
  | jbool (b : Bool)
  | jnull
  | jarr (xs : List Json)
  | jobj (kvs : List (Str × Json))

/-- JSON inter-token whitespace as accepted by `json.loads` (space, tab,
newline, carriage return). -/
def jsWs (c : Char) : Bool :=
  c = ' ' || c = '\t' || c = '\n' || c = '\r'

def hexVal (c : Char) : Option Nat :=
  if '0' ≤ c ∧ c ≤ '9' then some (c.toNat - 48)
  else if 'a' ≤ c ∧ c ≤ 'f' then some (c.toNat - 87)
  else if 'A' ≤ c ∧ c ≤ 'F' then some (c.toNat - 55)
  else none

def escChar (c : Char) : Option Char :=
  if c = '"' then some '"'
  else if c = '\\' then some '\\'
  else if c = '/' then some '/'
  else if c = 'b' then some '\x08'
  else if c = 'f' then some '\x0c'
  else if c = 'n' then some '\n'
  else if c = 'r' then some '\r'
  else if c = 't' then some '\t'
  else none

/-- Body of a JSON string literal (after the opening quote): unescape up to
the closing quote, rejecting raw control characters and bad escapes as
`json.loads` does in strict mode.  (`\uXXXX` values that are not scalar Lean
characters, i.e. lone surrogates, are rejected rather than represented.) -/
def parseStrLit : Str → Option (Str × Str)
  | [] => none
  | '"' :: r => some ([], r)
  | '\\' :: 'u' :: h1 :: h2 :: h3 :: h4 :: r => do
    let a ← hexVal h1
    let b ← hexVal h2
    let c ← hexVal h3
    let d ← hexVal h4
    let n := ((a * 16 + b) * 16 + c) * 16 + d
    if n.isValidChar then
      (fun (p : Str × Str) => (Char.ofNat n :: p.1, p.2)) <$> parseStrLit r
    else none
  | '\\' :: e :: r => do
    let c ← escChar e
    (fun (p : Str × Str) => (c :: p.1, p.2)) <$> parseStrLit r
  | c :: r =>
    if c.toNat < 32 then none
    else (fun (p : Str × Str) => (c :: p.1, p.2)) <$> parseStrLit r

/-- Characters that can continue a number token (a superset of the JSON
number grammar; the details never matter because a number in any schema
position fails validation). -/
def numChar (c : Char) : Bool :=
  ('0' ≤ c && c ≤ '9') || c = '+' || c = '-' || c = 'e' || c = 'E' || c = '.'

mutual

def parseVal : Nat → Str → Option (Json × Str)
  | 0, _ => none
  | fl + 1, t =>
    match t.dropWhile jsWs with
    | [] => none
    | c :: r =>
      if c = '"' then (parseStrLit r).map (fun p => (Json.jstr p.1, p.2))
      else if c = lbrace then parseObjBody fl r
      else if c = '[' then parseArrBody fl r
      else if c = 't' then
        if (txt ("rue")).isPrefixOf r then some (Json.jbool true, r.drop 3) else none
      else if c = 'f' then
        if (txt ("alse")).isPrefixOf r then some (Json.jbool false, r.drop 4) else none
      else if c = 'n' then
        if (txt ("ull")).isPrefixOf r then some (Json.jnull, r.drop 3) else none
      else if c = '-' || ('0' ≤ c && c ≤ '9') then
        some (Json.jnum ((c :: r).takeWhile numChar), (c :: r).dropWhile numChar)
      else none

def parseArrBody : Nat → Str → Option (Json × Str)
  | 0, _ => none
  | fl + 1, t =>
    match t.dropWhile jsWs with
    | c :: r =>
      if c = ']' then some (Json.jarr [], r)
      else
        match parseItems fl t with
        | some (xs, rest) => some (Json.jarr xs, rest)
        | none => none
    | [] =>
      match parseItems fl t with
      | some (xs, rest) => some (Json.jarr xs, rest)
      | none => none

def parseItems : Nat → Str → Option (List Json × Str)
  | 0, _ => none
  | fl + 1, t => do
    let (v, r1) ← parseVal fl t
    match r1.dropWhile jsWs with
    | ',' :: r2 => (fun (p : List Json × Str) => (v :: p.1, p.2)) <$> parseItems fl r2
    | ']' :: r2 => some ([v], r2)
    | _ => none

def parseObjBody : Nat → Str → Option (Json × Str)
  | 0, _ => none
  | fl + 1, t =>
    match t.dropWhile jsWs with
    | c :: r =>
      if c = rbrace then some (Json.jobj [], r)
      else
        match parseEntries fl (c :: r) with
        | some (kvs, rest) => some (Json.jobj kvs, rest)
        | none => none
    | [] => none

def parseEntries : Nat → Str → Option (List (Str × Json) × Str)
  | 0, _ => none
  | fl + 1, t =>
    match t with
    | [] => none
    | c :: r =>
      if c = '"' then parseEntry fl r else none

def parseEntry : Nat → Str → Option (List (Str × Json) × Str)
  | 0, _ => none
  | fl + 1, r => do
    let (k, r1) ← parseStrLit r
    match r1.dropWhile jsWs with
    | ':' :: r2 => do
      let (v, r3) ← parseVal fl r2
      match r3.dropWhile jsWs with
      | ',' :: r4 =>
        (fun (p : List (Str × Json) × Str) => ((k, v) :: p.1, p.2)) <$>
          parseEntries fl (r4.dropWhile jsWs)
      | c2 :: r4 => if c2 = rbrace then some ([(k, v)], r4) else none
      | [] => none
    | _ => none

end

/-- `json.loads`: parse one value, then require only whitespace to remain.
The fuel bound is generous; every recursive call follows the consumption of
at least one character. -/
def jsonParse (t : Str) : Option Json :=
  match parseVal (4 * t.length + 4) t with
  | some (j, rest) => if rest.dropWhile jsWs = [] then some j else none
  | none => none

/-! ## `ResearchResponse` and pydantic validation -/

structure ResearchResponse where
  topic : Str
  abstract : Str
  introduction : Str
  literature_review : Str
  methodology : Str
  analysis_and_findings : Str
  discussion : Str
  future_research : Str
  conclusion : Str
  sources : List Str
  tools_used : List Str
deriving DecidableEq

/-- Python dict semantics for duplicate JSON keys: the last binding wins. -/
def lookupLast (kvs : List (Str × Json)) (k : Str) : Option Json :=
  match kvs with
  | [] => none
  | (k', v) :: rest =>
    match lookupLast rest k with
    | some r => some r
    | none => if k' = k then some v else none

def asStr : Json → Option Str
  | .jstr v => some v
  | _ => none

/-- Require every element of a JSON array to be a string. -/
def allStrs : List Json → Option (List Str)
  | [] => some []
  | .jstr v :: rest => (allStrs rest).map (fun l => v :: l)
  | _ => none

def asStrList : Json → Option (List Str)
  | .jarr xs => allStrs xs
  | _ => none

/-- `ResearchResponse(**data)`: pydantic accepts the object when every
declared field is present with the declared type (`str` fields must be
strings, the two list fields lists of strings); extra keys are ignored,
anything else raises (and is caught by the caller). -/
def toResponse : Json → Option ResearchResponse
  | .jobj kvs => do
    let topic ← (lookupLast kvs (txt ("topic"))).bind asStr
    let abstract ← (lookupLast kvs (txt ("abstract"))).bind asStr
    let introduction ← (lookupLast kvs (txt ("introduction"))).bind asStr
    let literature_review ← (lookupLast kvs (txt ("literature_review"))).bind asStr
    let methodology ← (lookupLast kvs (txt ("methodology"))).bind asStr
    let analysis_and_findings ← (lookupLast kvs (txt ("analysis_and_findings"))).bind asStr
    let discussion ← (lookupLast kvs (txt ("discussion"))).bind asStr
    let future_research ← (lookupLast kvs (txt ("future_research"))).bind asStr
    let conclusion ← (lookupLast kvs (txt ("conclusion"))).bind asStr
    let sources ← (lookupLast kvs (txt ("sources"))).bind asStrList
    let tools_used ← (lookupLast kvs (txt ("tools_used"))).bind asStrList
    some ⟨topic, abstract, introduction, literature_review, methodology,
      analysis_and_findings, discussion, future_research, conclusion,
      sources, tools_used⟩
  | _ => none

/-- The strict path of the normalizer: `json.loads` then validation. -/
def strictParse (t : Str) : Option ResearchResponse :=
  (jsonParse t).bind toResponse

/-- The dynamic dictionary built by the regex fallback, fed to
`ResearchResponse(**parsed)`. -/
def fallback_extract (t : Str) : Json :=
  Json.jobj
    [ (txt ("topic"), Json.jstr (extract_string (txt ("topic")) t))
    , (txt ("abstract"), Json.jstr (extract_string (txt ("abstract")) t))
    , (txt ("introduction"), Json.jstr (extract_string (txt ("introduction")) t))
    , (txt ("literature_review"), Json.jstr (extract_string (txt ("literature_review")) t))
    , (txt ("methodology"), Json.jstr (extract_string (txt ("methodology")) t))
    , (txt ("analysis_and_findings"), Json.jstr (extract_string (txt ("analysis_and_findings")) t))
    , (txt ("discussion"), Json.jstr (extract_string (txt ("discussion")) t))
    , (txt ("future_research"), Json.jstr (extract_string (txt ("future_research")) t))
    , (txt ("conclusion"), Json.jstr (extract_string (txt ("conclusion")) t))
    , (txt ("sources"), Json.jarr ((extract_list (txt ("sources")) t).map Json.jstr))
    , (txt ("tools_used"), Json.jarr ((extract_list (txt ("tools_used")) t).map Json.jstr)) ]

/-- The record the fallback produces, written directly. -/
def fallbackDoc (t : Str) : ResearchResponse :=
  ⟨ extract_string (txt ("topic")) t
  , extract_string (txt ("abstract")) t
  , extract_string (txt ("introduction")) t
  , extract_string (txt ("literature_review")) t
  , extract_string (txt ("methodology")) t
  , extract_string (txt ("analysis_and_findings")) t
  , extract_string (txt ("discussion")) t
  , extract_string (txt ("future_research")) t
  , extract_string (txt ("conclusion")) t
  , extract_list (txt ("sources")) t
  , extract_list (txt ("tools_used")) t ⟩

/-- The document all of whose fields and sequences are empty. -/
def emptyResponse : ResearchResponse :=
  ⟨[], [], [], [], [], [], [], [], [], [], []⟩

/-- The parse stage of `generate_research` (`main_simple.py` lines 109-146):
strip code fences; try `json.loads` + `ResearchResponse(**data)`; on any
failure run the regex fallback and validate its dictionary. -/
def parse_response (raw : Str) : Option ResearchResponse :=
  let final_text := strip_code_fences raw
  match strictParse final_text with
  | some r => some r
  | none => toResponse (fallback_extract final_text)

/-! ## `build_paper_text` (the document renderer) -/

/-- `"\n\n".join(lines)`. -/
def joinSep (sep : Str) : List Str → Str
  | [] => []
  | [x] => x
  | x :: y :: rest => x ++ sep ++ joinSep sep (y :: rest)

def nn : Str := txt ("\n\n")

/-- The `[{i}] {s}` reference lines (1-based enumeration). -/
def srcLines (sources : List Str) : List Str :=
  sources.enum.map (fun p => txt ("[") ++ (Nat.repr (p.1 + 1)).toList ++ txt ("] ") ++ p.2)

/-- The `• {t}` tool bullet lines. -/
def toolLines (tools_used : List Str) : List Str :=
  tools_used.map (fun t => txt ("• ") ++ t)

/-- `build_paper_text` from `main_simple.py`: the list of appended lines,
joined with a blank-line separator. -/
def build_paper_text (r : ResearchResponse) : Str :=
  joinSep nn
    ([ r.topic.map Char.toUpper
     , txt ("\nABSTRACT\n"), r.abstract
     , txt ("\nINTRODUCTION\n"), r.introduction
     , txt ("\nLITERATURE REVIEW\n"), r.literature_review
     , txt ("\nMETHODOLOGY\n"), r.methodology
     , txt ("\nANALYSIS AND FINDINGS\n"), r.analysis_and_findings
     , txt ("\nDISCUSSION\n"), r.discussion
     , txt ("\nFUTURE RESEARCH\n"), r.future_research
     , txt ("\nCONCLUSION\n"), r.conclusion
     , txt ("\nREFERENCES\n") ]
     ++ srcLines r.sources
     ++ [txt ("\nRESEARCH METHODOLOGY & TOOLS\n")]
     ++ toolLines r.tools_used)

/-- All start positions at which `pat` occurs as a substring. -/
def occIdxs (pat : Str) : Str → List Nat
  | [] => if pat = [] then [0] else []
  | c :: rest =>
    (if pat.isPrefixOf (c :: rest) then [0] else []) ++ (occIdxs pat rest).map (· + 1)

/-- Offset contributed by a list of items when joined with the two-character
separator: each item costs its length plus two. -/
def offs : List Str → Nat
  | [] => 0
  | x :: xs => x.length + 2 + offs xs

/-- The eight fixed body-section labels named by the spec. -/
def labels8 : List Str :=
  [ txt ("ABSTRACT"), txt ("INTRODUCTION"), txt ("LITERATURE REVIEW")
  , txt ("METHODOLOGY"), txt ("ANALYSIS AND FINDINGS"), txt ("DISCUSSION")
  , txt ("FUTURE RESEARCH"), txt ("CONCLUSION") ]

/-- Every rendered fragment that is not one of the fixed headings: the
upper-cased topic, the eight body texts, the reference lines and the tool
bullets. -/
def contentItems (r : ResearchResponse) : List Str :=
  [ r.topic.map Char.toUpper, r.abstract, r.introduction, r.literature_review
  , r.methodology, r.analysis_and_findings, r.discussion, r.future_research
  , r.conclusion ] ++ srcLines r.sources ++ toolLines r.tools_used

/-! ## Tool wrappers (`tools.py`)

The network body of each lookup (the whole `try` block: HTTP call, Wikipedia
client, result assembly) is abstracted as a function returning
`Except Str Str`, where `.error e` stands for a raised exception with
message `e` (`str(e)` in the source).  Each wrapper's `except` branch is
translated literally. -/

/-- `web_search_tool(query, max_results)`: on any failure of the body,
return the marker string from `tools.py` line 65. -/
def web_search_tool (body : Str → Nat → Except Str Str) (query : Str) (max_results : Nat) : Str :=
  match body query max_results with
  | .ok v => v
  | .error e => txt ("Web search tool error: ") ++ e

/-- `search_tool(query, results, sentences)`: marker from `tools.py` line 85. -/
def search_tool (body : Str → Nat → Nat → Except Str Str) (query : Str)
    (results sentences : Nat) : Str :=
  match body query results sentences with
  | .ok v => v
  | .error e => txt ("Search tool error: ") ++ e

/-- `wiki_tool(title, sentences)`: marker from `tools.py` line 93. -/
def wiki_tool (summary : Str → Nat → Except Str Str) (title : Str) (sentences : Nat) : Str :=
  match summary title sentences with
  | .ok v => v
  | .error e => txt ("Wiki tool error for \x27") ++ title ++ txt ("\x27: ") ++ e

/-- The evidence-collection block of `generate_research` (lines 69-89): run
the three lookups, then save a combined snapshot, recording all four results
in the bundle.  The wrappers are total, so the enclosing `except` branch
(which would add a `tool_error` entry) is unreachable and the inner
`try/except` around `wiki_tool` never fires. -/
def collect_evidence (webB : Str → Nat → Except Str Str)
    (searchB : Str → Nat → Nat → Except Str Str)
    (wikiB : Str → Nat → Except Str Str)
    (save : Str → Str) (query : Str) : List (Str × Str) :=
  let ws := web_search_tool webB query 5
  let wp := search_tool searchB query 5 3
  let wsum := wiki_tool wikiB query 5
  let combined := txt ("Query: ") ++ query ++ txt ("\n\nWEB SEARCH:\n") ++ ws
    ++ txt ("\n\nWIKIPEDIA SEARCH:\n") ++ wp
    ++ txt ("\n\nWIKIPEDIA SUMMARY:\n") ++ wsum ++ txt ("\n")
  [ (txt ("web_search"), ws)
  , (txt ("wikipedia_search"), wp)
  , (txt ("wikipedia_summary"), wsum)
  , (txt ("tool_snapshot_saved"), save combined) ]

/-! ## `save_tool` and `normalize_common` -/

/-- The smart-punctuation substitutions of `normalize_common`. -/
def replacements : List (Char × Str) :=
  [ (Char.ofNat 8211, txt ("-"))      -- en dash
  , (Char.ofNat 8212, txt (" - "))    -- em dash
  , (Char.ofNat 8216, txt ("\x27"))   -- left single quote
  , (Char.ofNat 8217, txt ("\x27"))   -- right single quote
  , (Char.ofNat 8220, txt ("\x22"))   -- left double quote
  , (Char.ofNat 8221, txt ("\x22"))   -- right double quote
  , (Char.ofNat 8230, txt ("..."))    -- ellipsis
  , (Char.ofNat 8208, txt ("-")) ]    -- unicode hyphen

/-- `str.replace` for a single-character pattern (every replacement key is a
single character). -/
def replaceChar (c : Char) (r : Str) (t : Str) : Str :=
  t.flatMap (fun x => if x = c then r else [x])

def applyReplacements (t : Str) : Str :=
  replacements.foldl (fun acc p => replaceChar p.1 p.2 acc) t

/-- A character the `latin-1` codec can encode (code points 0-255). -/
def latin1Ok (c : Char) : Bool := c.toNat < 256

/-- `normalize_common` from `save_tool`: substitute smart punctuation, apply
NFKD (the Unicode decomposition table is external, passed as `nfkd`), keep
the text if it already encodes in latin-1 and otherwise drop every
non-encodable character (`encode('latin-1', 'ignore')`). -/
def normalize_common (nfkd : Str → Str) (text : Str) : Str :=
  let t := applyReplacements text
  let t := nfkd t
  if t.all latin1Ok then t else t.filter latin1Ok

/-- Result of the persistence sink: the returned status string and the text
files the sink itself wrote (the PDF writer is external and its output is
not tracked). -/
structure SaveResult where
  status : Str
  written : List (Str × Str)
deriving DecidableEq

/-- `filename.rsplit('.', 1)[0]`: the stem before the last dot, or the whole
name when there is no dot. -/
def stemOf (f : Str) : Str :=
  if '.' ∈ f then ((f.reverse.dropWhile (· ≠ '.')).drop 1).reverse else f

/-- Header written before the original content in the text fallback file. -/
def fallbackHdr (e1 e2 : Str) : Str :=
  txt ("PDF save failed: ") ++ e1 ++ txt ("\nRetry with normalization failed: ") ++ e2
    ++ txt ("\n\nOriginal content below:\n\n")

/-- `save_tool(content, filename, as_pdf=True)` from `tools.py` with the
filename supplied (as `main` does; the timestamped default name only fills a
missing filename).  `pdfWrite c f` stands for one `try_write_pdf` attempt by
the external fpdf library; `.error e` is a raised exception with message
`e`.  The `except` branch around the `unicodedata` import cannot fire and is
not modelled. -/
def save_tool (nfkd : Str → Str) (pdfWrite : Str → Str → Except Str Unit)
    (content fname : Str) : SaveResult :=
  match pdfWrite content fname with
  | .ok _ => ⟨txt ("Saved to ") ++ fname, []⟩
  | .error e1 =>
    let safe_content := normalize_common nfkd content
    match pdfWrite safe_content fname with
    | .ok _ => ⟨txt ("Saved to ") ++ fname ++ txt (" (normalized unicode characters)"), []⟩
    | .error e2 =>
      let fallback_name := stemOf fname ++ txt (".txt")
      ⟨ txt ("PDF save failed (") ++ e1 ++ txt ("). Normalization retry failed (") ++ e2
          ++ txt ("). Saved text fallback to ") ++ fallback_name
      , [(fallback_name, fallbackHdr e1 e2 ++ content)] ⟩

/-! ## Shared helper lemmas -/

theorem mem_of_mem_dropWhile {p : Char → Bool} {a : Char} {l : Str}
    (h : a ∈ l.dropWhile p) : a ∈ l :=
  List.Sublist.mem h (List.dropWhile_sublist p)

theorem allStrs_map_jstr (xs : List Str) : allStrs (xs.map Json.jstr) = some xs := by
  induction xs with
  | nil => rfl
  | cons x xs ih => simp [allStrs, ih]

/-- The fallback dictionary always passes `ResearchResponse(**parsed)`
validation: every value it contains is a string or a list of strings. -/
theorem fallback_validates (t : Str) :
    toResponse (fallback_extract t) = some (fallbackDoc t) := by
  have h1 := allStrs_map_jstr (extract_list (txt ("sources")) t)
  have h2 := allStrs_map_jstr (extract_list (txt ("tools_used")) t)
  simp +decide [toResponse, fallback_extract, lookupLast, asStr, asStrList, fallbackDoc, h1, h2]

/-! ## C9 — `normalize_common` always yields latin-1-encodable text -/

/-- C9: for every input string and every behavior of the external NFKD
decomposition, the result of `normalize_common` encodes in latin-1: either
the normalized text already does, or every non-encodable character is
dropped by the `'ignore'` fallback. -/
theorem c9_normalize_common_latin1 (nfkd : Str → Str) (text : Str) :
    ((normalize_common nfkd text).all latin1Ok) = true := by
  unfold normalize_common
  by_cases h : (nfkd (applyReplacements text)).all latin1Ok
  · simp [h]
  · simp only [h, if_false, List.all_eq_true]
    intro c hc
    exact (List.mem_filter.mp hc).2

/-! ## C10 — the fallback pattern stops at an escaped quote -/

/-- Raw text whose `topic` value contains a backslash-escaped quote directly
followed by a comma: `{"topic": "say \"hi\", ok"}`. -/
def escSample : Str := txt ("\x7b\"topic\": \"say \\\"hi\\\", ok\"\x7d")

/-- C10: on `escSample` the extractor pattern terminates at the first quote
followed by a comma without checking for a preceding backslash, so it
returns `say \"hi\` — a strict prefix of the intended raw value
`say \"hi\", ok` (which runs to the unescaped closing quote). -/
theorem c10_escaped_quote_prefix :
    extract_string (txt ("topic")) escSample = txt ("say \\\"hi\\")
  ∧ (txt ("say \\\"hi\\")) <+: (txt ("say \\\"hi\\\", ok"))
  ∧ txt ("say \\\"hi\\") ≠ txt ("say \\\"hi\\\", ok") := by
  refine ⟨by decide, by decide, by decide⟩

/-! ## C7 — `save_tool` double-failure fallback -/

/-- C7 (amended): when the PDF write fails and the retry on normalized
content also fails, `save_tool` writes the raw content verbatim (after a
diagnostic header) to `<stem>.txt` and returns a status string naming the
fallback path and both failure reasons.  (The status does not name the
original path — see the counterexample.) -/
theorem c7_save_tool_double_failure (nfkd : Str → Str)
    (pw : Str → Str → Except Str Unit) (content fname e1 e2 : Str)
    (h1 : pw content fname = .error e1)
    (h2 : pw (normalize_common nfkd content) fname = .error e2) :
    save_tool nfkd pw content fname =
      ⟨ txt ("PDF save failed (") ++ e1 ++ txt ("). Normalization retry failed (") ++ e2
          ++ txt ("). Saved text fallback to ") ++ (stemOf fname ++ txt (".txt"))
      , [(stemOf fname ++ txt (".txt"), fallbackHdr e1 e2 ++ content)] ⟩
    ∧ content <:+ fallbackHdr e1 e2 ++ content
    ∧ (stemOf fname ++ txt (".txt")) <:+:
        (save_tool nfkd pw content fname).status
    ∧ e1 <:+: (save_tool nfkd pw content fname).status
    ∧ e2 <:+: (save_tool nfkd pw content fname).status := by
  have hmain : save_tool nfkd pw content fname =
      ⟨ txt ("PDF save failed (") ++ e1 ++ txt ("). Normalization retry failed (") ++ e2
          ++ txt ("). Saved text fallback to ") ++ (stemOf fname ++ txt (".txt"))
      , [(stemOf fname ++ txt (".txt"), fallbackHdr e1 e2 ++ content)] ⟩ := by
    simp only [save_tool, h1, h2]
  refine ⟨hmain, ⟨fallbackHdr e1 e2, rfl⟩, ?_, ?_, ?_⟩
  · rw [hmain]
    exact ⟨txt ("PDF save failed (") ++ e1 ++ txt ("). Normalization retry failed (") ++ e2
      ++ txt ("). Saved text fallback to "), [], by simp⟩
  · rw [hmain]
    exact ⟨txt ("PDF save failed ("),
      txt ("). Normalization retry failed (") ++ e2
        ++ txt ("). Saved text fallback to ") ++ (stemOf fname ++ txt (".txt")), by simp⟩
  · rw [hmain]
    exact ⟨txt ("PDF save failed (") ++ e1 ++ txt ("). Normalization retry failed ("),
      txt ("). Saved text fallback to ") ++ (stemOf fname ++ txt (".txt")), by simp⟩

/-- Witness for C7 at a concrete always-failing PDF writer. -/
theorem c7_save_tool_double_failure_witness :
    save_tool id (fun _ _ => Except.error (txt ("enc"))) (txt ("x")) (txt ("doc.pdf")) =
      ⟨ txt ("PDF save failed (") ++ txt ("enc") ++ txt ("). Normalization retry failed (")
          ++ txt ("enc") ++ txt ("). Saved text fallback to ")
          ++ (stemOf (txt ("doc.pdf")) ++ txt (".txt"))
      , [(stemOf (txt ("doc.pdf")) ++ txt (".txt"),
          fallbackHdr (txt ("enc")) (txt ("enc")) ++ txt ("x"))] ⟩
    ∧ txt ("x") <:+ fallbackHdr (txt ("enc")) (txt ("enc")) ++ txt ("x") :=
  ⟨(c7_save_tool_double_failure id (fun _ _ => Except.error (txt ("enc")))
      (txt ("x")) (txt ("doc.pdf")) (txt ("enc")) (txt ("enc")) rfl rfl).1,
   (c7_save_tool_double_failure id (fun _ _ => Except.error (txt ("enc")))
      (txt ("x")) (txt ("doc.pdf")) (txt ("enc")) (txt ("enc")) rfl rfl).2.1⟩

/-- C7 counterexample: the claim also asserts the status names the original
path; it does not.  With target `doc.pdf` the status string does not contain
`doc.pdf` anywhere. -/
theorem c7_status_lacks_original_path_cex :
    (save_tool id (fun _ _ => Except.error (txt ("enc"))) (txt ("x")) (txt ("doc.pdf"))).status =
      txt ("PDF save failed (enc). Normalization retry failed (enc). Saved text fallback to doc.txt")
    ∧ ¬ (txt ("doc.pdf")) <:+:
        (save_tool id (fun _ _ => Except.error (txt ("enc"))) (txt ("x")) (txt ("doc.pdf"))).status := by
  refine ⟨by decide, by decide⟩

/-! ## C8 — evidence lookups degrade to error markers -/

/-- C8 (amended): each lookup is total — a failing body yields a textual
marker in lieu of data: `Web search tool error: <message>` and
`Search tool error: <message>` for the first two, and
`Wiki tool error for '<title>': <message>` for the Wikipedia summary
lookup.  When all three bodies fail, the three lookup entries of the
evidence bundle are exactly these markers; the bundle additionally records
the snapshot-save status, and collection itself is a total function. -/
theorem c8_lookup_markers_amended (q e1 e2 e3 : Str) (mr res sen : Nat) (save : Str → Str) :
    web_search_tool (fun _ _ => .error e1) q mr = txt ("Web search tool error: ") ++ e1
  ∧ search_tool (fun _ _ _ => .error e2) q res sen = txt ("Search tool error: ") ++ e2
  ∧ wiki_tool (fun _ _ => .error e3) q sen = txt ("Wiki tool error for \x27") ++ q ++ txt ("\x27: ") ++ e3
  ∧ collect_evidence (fun _ _ => .error e1) (fun _ _ _ => .error e2) (fun _ _ => .error e3) save q =
      [ (txt ("web_search"), txt ("Web search tool error: ") ++ e1)
      , (txt ("wikipedia_search"), txt ("Search tool error: ") ++ e2)
      , (txt ("wikipedia_summary"), txt ("Wiki tool error for \x27") ++ q ++ txt ("\x27: ") ++ e3)
      , (txt ("tool_snapshot_saved"),
         save (txt ("Query: ") ++ q ++ txt ("\n\nWEB SEARCH:\n")
           ++ (txt ("Web search tool error: ") ++ e1)
           ++ txt ("\n\nWIKIPEDIA SEARCH:\n") ++ (txt ("Search tool error: ") ++ e2)
           ++ txt ("\n\nWIKIPEDIA SUMMARY:\n")
           ++ (txt ("Wiki tool error for \x27") ++ q ++ txt ("\x27: ") ++ e3) ++ txt ("\n"))) ] :=
  ⟨rfl, rfl, rfl, rfl⟩

/-- C8 counterexample: the claim says every marker has the shape
`<tool name> error: <message>`.  The Wikipedia summary lookup's marker is
`Wiki tool error for 'Q': boom`, which extends neither
`Wiki tool error: ` nor `wiki_tool error: `; and with all three lookups
failing the bundle also carries the `tool_snapshot_saved` entry, which is
not an error marker at all. -/
theorem c8_wiki_marker_form_cex :
    wiki_tool (fun _ _ => Except.error (txt ("boom"))) (txt ("Q")) 5 =
      txt ("Wiki tool error for \x27Q\x27: boom")
  ∧ (¬ ∃ msg, wiki_tool (fun _ _ => Except.error (txt ("boom"))) (txt ("Q")) 5 =
        txt ("Wiki tool error: ") ++ msg)
  ∧ (¬ ∃ msg, wiki_tool (fun _ _ => Except.error (txt ("boom"))) (txt ("Q")) 5 =
        txt ("wiki_tool error: ") ++ msg)
  ∧ (txt ("tool_snapshot_saved"), txt ("Saved to research_snapshot.pdf")) ∈
      collect_evidence (fun _ _ => Except.error (txt ("a"))) (fun _ _ _ => Except.error (txt ("b")))
        (fun _ _ => Except.error (txt ("c"))) (fun _ => txt ("Saved to research_snapshot.pdf"))
        (txt ("Q"))
  ∧ ¬ (txt ("error")) <:+: txt ("Saved to research_snapshot.pdf") := by
  refine ⟨by decide, ?_, ?_, by decide, by decide⟩
  · rintro ⟨msg, hm⟩
    have hpre : txt ("Wiki tool error: ") <+:
        wiki_tool (fun _ _ => Except.error (txt ("boom"))) (txt ("Q")) 5 :=
      hm ▸ List.prefix_append _ msg
    have : ¬ txt ("Wiki tool error: ") <+:
        wiki_tool (fun _ _ => Except.error (txt ("boom"))) (txt ("Q")) 5 := by decide
    exact this hpre
  · rintro ⟨msg, hm⟩
    have hpre : txt ("wiki_tool error: ") <+:
        wiki_tool (fun _ _ => Except.error (txt ("boom"))) (txt ("Q")) 5 :=
      hm ▸ List.prefix_append _ msg
    have : ¬ txt ("wiki_tool error: ") <+:
        wiki_tool (fun _ _ => Except.error (txt ("boom"))) (txt ("Q")) 5 := by decide
    exact this hpre

/-! ## C1 — the normalizer is total and falls back to extraction -/

/-- C1: for every raw reply text the parse stage returns a fully-populated
document (the fallback dictionary always validates), and whenever the strict
path fails for any reason the result is exactly the document assembled by
the tolerant extractor. -/
theorem c1_normalizer_total (raw : Str) :
    (∃ d, parse_response raw = some d)
  ∧ (strictParse (strip_code_fences raw) = none →
      parse_response raw = some (fallbackDoc (strip_code_fences raw))) := by
  have hv := fallback_validates (strip_code_fences raw)
  constructor
  · cases h : strictParse (strip_code_fences raw) with
    | some r => exact ⟨r, by simp only [parse_response]; rw [h]⟩
    | none =>
      exact ⟨fallbackDoc (strip_code_fences raw), by simp only [parse_response]; rw [h, hv]⟩
  · intro h
    simp only [parse_response]
    rw [h, hv]

/-- Witness for C1: a reply that is not JSON at all takes the fallback and,
containing no quoted fragment, yields the all-empty document. -/
theorem c1_normalizer_total_witness :
    strictParse (strip_code_fences (txt ("garbage"))) = none
  ∧ parse_response (txt ("garbage")) = some (fallbackDoc (strip_code_fences (txt ("garbage"))))
  ∧ fallbackDoc (strip_code_fences (txt ("garbage"))) = emptyResponse :=
  ⟨by decide, (c1_normalizer_total (txt ("garbage"))).2 (by decide), by decide⟩

/-! ## C5 — the topic field of a normalized document can be empty -/

theorem firstMatch_none_of_no_quote (key t : Str) (h : '"' ∉ t) : firstMatch key t = none := by
  induction t with
  | nil => rfl
  | cons c rest ih =>
    have hc : ¬ c = '"' := fun hcc => h (hcc ▸ List.mem_cons_self c rest)
    have hr : '"' ∉ rest := fun hm => h (List.mem_cons_of_mem c hm)
    simp [firstMatch, matchAt, hc, ih hr]

theorem firstListMatch_none_of_no_quote (key t : Str) (h : '"' ∉ t) :
    firstListMatch key t = none := by
  induction t with
  | nil => rfl
  | cons c rest ih =>
    have hc : ¬ c = '"' := fun hcc => h (hcc ▸ List.mem_cons_self c rest)
    have hr : '"' ∉ rest := fun hm => h (List.mem_cons_of_mem c hm)
    simp [firstListMatch, matchListAt, hc, ih hr]

/-- With no quote in the text, every extracted field is empty. -/
theorem fallbackDoc_of_no_quote (t : Str) (h : '"' ∉ t) : fallbackDoc t = emptyResponse := by
  simp [fallbackDoc, extract_string, extract_list, emptyResponse,
    firstMatch_none_of_no_quote _ _ h, firstListMatch_none_of_no_quote _ _ h]

theorem parseEntries_quote (fl : Nat) (u : Str) (kvs : List (Str × Json)) (rest : Str)
    (h : parseEntries fl u = some (kvs, rest)) : '"' ∈ u := by
  cases fl with
  | zero => simp [parseEntries] at h
  | succ fl =>
    cases u with
    | nil => simp [parseEntries] at h
    | cons c r =>
      by_cases hc : c = '"'
      · exact hc ▸ List.mem_cons_self c r
      · simp [parseEntries, hc] at h

theorem parseObjBody_quote (fl : Nat) (r : Str) (kvs : List (Str × Json)) (rest : Str)
    (h : parseObjBody fl r = some (Json.jobj kvs, rest)) (hk : kvs ≠ []) : '"' ∈ r := by
  cases fl with
  | zero => simp [parseObjBody] at h
  | succ fl =>
    rcases hdw : r.dropWhile jsWs with _ | ⟨c, r2⟩
    · simp [parseObjBody, hdw] at h
    · by_cases hc : c = rbrace
      · simp [parseObjBody, hdw, hc] at h
        exact absurd h.1 hk
      · rcases hpe : parseEntries fl (c :: r2) with _ | ⟨kvs', rest'⟩
        · simp [parseObjBody, hdw, hc, hpe] at h
        · have hm : '"' ∈ c :: r2 := parseEntries_quote fl (c :: r2) kvs' rest' hpe
          exact mem_of_mem_dropWhile (hdw ▸ hm)

theorem parseArrBody_shape (fl : Nat) (r : Str) (j : Json) (rest : Str)
    (h : parseArrBody fl r = some (j, rest)) : ∃ xs, j = Json.jarr xs := by
  cases fl with
  | zero => simp [parseArrBody] at h
  | succ fl =>
    rcases hdw : r.dropWhile jsWs with _ | ⟨c, r2⟩
    · rcases hpi : parseItems fl r with _ | ⟨xs, rest'⟩
      · simp [parseArrBody, hdw, hpi] at h
      · simp [parseArrBody, hdw, hpi] at h
        exact ⟨xs, h.1.symm⟩
    · by_cases hc : c = ']'
      · simp [parseArrBody, hdw, hc] at h
        exact ⟨[], h.1.symm⟩
      · rcases hpi : parseItems fl r with _ | ⟨xs, rest'⟩
        · simp [parseArrBody, hdw, hc, hpi] at h
        · simp [parseArrBody, hdw, hc, hpi] at h
          exact ⟨xs, h.1.symm⟩

theorem parseVal_jobj_quote (fl : Nat) (t : Str) (kvs : List (Str × Json)) (rest : Str)
    (h : parseVal fl t = some (Json.jobj kvs, rest)) (hk : kvs ≠ []) : '"' ∈ t := by
  cases fl with
  | zero => simp [parseVal] at h
  | succ fl =>
    rcases hdw : t.dropWhile jsWs with _ | ⟨c, r⟩
    · simp [parseVal, hdw] at h
    · by_cases h1 : c = '"'
      · rcases hps : parseStrLit r with _ | p
        · simp [parseVal, hdw, h1, hps] at h
        · simp [parseVal, hdw, h1, hps] at h
      · by_cases h2 : c = lbrace
        · have hb : parseObjBody fl r = some (Json.jobj kvs, rest) := by
            simpa [parseVal, hdw, h1, h2] using h
          have hm : '"' ∈ c :: r := List.mem_cons_of_mem c (parseObjBody_quote fl r kvs rest hb hk)
          exact mem_of_mem_dropWhile (hdw ▸ hm)
        · by_cases h3 : c = '['
          · have hb : parseArrBody fl r = some (Json.jobj kvs, rest) := by
              simpa [parseVal, hdw, h1, h2, h3] using h
            obtain ⟨xs, hxs⟩ := parseArrBody_shape fl r _ rest hb
            simp at hxs
          · by_cases h4 : c = 't'
            · by_cases hp : (txt ("rue")).isPrefixOf r
              · simp +decide [parseVal, hdw, h1, h2, h3, h4, hp] at h
              · simp +decide [parseVal, hdw, h1, h2, h3, h4, hp] at h
            · by_cases h5 : c = 'f'
              · by_cases hp : (txt ("alse")).isPrefixOf r
                · simp +decide [parseVal, hdw, h1, h2, h3, h4, h5, hp] at h
                · simp +decide [parseVal, hdw, h1, h2, h3, h4, h5, hp] at h
              · by_cases h6 : c = 'n'
                · by_cases hp : (txt ("ull")).isPrefixOf r
                  · simp +decide [parseVal, hdw, h1, h2, h3, h4, h5, h6, hp] at h
                  · simp +decide [parseVal, hdw, h1, h2, h3, h4, h5, h6, hp] at h
                · by_cases h7 : c = '-' || ('0' ≤ c && c ≤ '9')
                  · simp [parseVal, hdw, h1, h2, h3, h4, h5, h6, h7] at h
                  · simp [parseVal, hdw, h1, h2, h3, h4, h5, h6, h7] at h

theorem strictParse_some_quote (t : Str) (d : ResearchResponse)
    (h : strictParse t = some d) : '"' ∈ t := by
  unfold strictParse at h
  rcases hj : jsonParse t with _ | j
  · rw [hj] at h; simp at h
  · rw [hj] at h
    rw [Option.some_bind] at h
    unfold jsonParse at hj
    rcases hpv : parseVal (4 * t.length + 4) t with _ | ⟨j', rest⟩
    · rw [hpv] at hj; simp at hj
    · rw [hpv] at hj
      by_cases hrest : rest.dropWhile jsWs = []
      · simp [hrest] at hj
        cases hj
        cases j with
        | jobj kvs =>
          by_cases hk : kvs = []
          · subst hk
            rw [show toResponse (Json.jobj []) = none from rfl] at h
            simp at h
          · exact parseVal_jobj_quote _ t kvs rest hpv hk
        | jstr v => simp [toResponse] at h
        | jnum raw => simp [toResponse] at h
        | jbool b => simp [toResponse] at h
        | jnull => simp [toResponse] at h
        | jarr xs => simp [toResponse] at h
      · simp [hrest] at hj

/-- C5 (amended): the topic of a normalized document may be empty — the
normalizer enforces no non-emptiness.  Whenever the stripped reply contains
no double-quote character, the strict path necessarily fails and the
tolerant path returns the document with every field empty, topic included. -/
theorem c5_topic_amended (raw : Str) (h : '"' ∉ strip_code_fences raw) :
    parse_response raw = some emptyResponse := by
  have hs : strictParse (strip_code_fences raw) = none := by
    cases hq : strictParse (strip_code_fences raw) with
    | none => rfl
    | some d => exact absurd (strictParse_some_quote _ d hq) h
  have hv := fallback_validates (strip_code_fences raw)
  simp only [parse_response]
  rw [hs, hv, fallbackDoc_of_no_quote _ h]

/-- C5 counterexample: normalizing the reply `hello` succeeds and yields a
document whose topic is the empty string, refuting the invariant that the
topic field is always non-empty text. -/
theorem c5_topic_nonempty_cex :
    parse_response (txt ("hello")) = some emptyResponse ∧ emptyResponse.topic = [] :=
  ⟨by decide, rfl⟩

/-- Witness for C5 (amended) at the quote-free reply `no quotes here`. -/
theorem c5_topic_amended_witness :
    parse_response (txt ("no quotes here")) = some emptyResponse :=
  c5_topic_amended (txt ("no quotes here")) (by decide)

/-! ## C3 — the strict-parse path preserves every field -/

/-- C3: whenever the fence-stripped reply parses as a JSON object that
validates, every field of the returned document is exactly the
corresponding value in the reply: the nine text fields are the object's
string values, the two sequences its string arrays — nothing is altered,
dropped or defaulted — and the normalizer returns that document. -/
theorem c3_strict_parse_roundtrip (raw : Str) (kvs : List (Str × Json)) (d : ResearchResponse)
    (hp : jsonParse (strip_code_fences raw) = some (Json.jobj kvs))
    (hv : toResponse (Json.jobj kvs) = some d) :
    (lookupLast kvs (txt ("topic"))).bind asStr = some d.topic
  ∧ (lookupLast kvs (txt ("abstract"))).bind asStr = some d.abstract
  ∧ (lookupLast kvs (txt ("introduction"))).bind asStr = some d.introduction
  ∧ (lookupLast kvs (txt ("literature_review"))).bind asStr = some d.literature_review
  ∧ (lookupLast kvs (txt ("methodology"))).bind asStr = some d.methodology
  ∧ (lookupLast kvs (txt ("analysis_and_findings"))).bind asStr = some d.analysis_and_findings
  ∧ (lookupLast kvs (txt ("discussion"))).bind asStr = some d.discussion
  ∧ (lookupLast kvs (txt ("future_research"))).bind asStr = some d.future_research
  ∧ (lookupLast kvs (txt ("conclusion"))).bind asStr = some d.conclusion
  ∧ (lookupLast kvs (txt ("sources"))).bind asStrList = some d.sources
  ∧ (lookupLast kvs (txt ("tools_used"))).bind asStrList = some d.tools_used
  ∧ parse_response raw = some d := by
  have hsp : strictParse (strip_code_fences raw) = some d := by
    unfold strictParse
    rw [hp, Option.some_bind, hv]
  have hpr : parse_response raw = some d := by
    simp only [parse_response]
    rw [hsp]
  simp only [toResponse] at hv
  obtain ⟨t1, h1, hv⟩ := Option.bind_eq_some.mp hv
  obtain ⟨t2, h2, hv⟩ := Option.bind_eq_some.mp hv
  obtain ⟨t3, h3, hv⟩ := Option.bind_eq_some.mp hv
  obtain ⟨t4, h4, hv⟩ := Option.bind_eq_some.mp hv
  obtain ⟨t5, h5, hv⟩ := Option.bind_eq_some.mp hv
  obtain ⟨t6, h6, hv⟩ := Option.bind_eq_some.mp hv
  obtain ⟨t7, h7, hv⟩ := Option.bind_eq_some.mp hv
  obtain ⟨t8, h8, hv⟩ := Option.bind_eq_some.mp hv
  obtain ⟨t9, h9, hv⟩ := Option.bind_eq_some.mp hv
  obtain ⟨s1, h10, hv⟩ := Option.bind_eq_some.mp hv
  obtain ⟨s2, h11, hv⟩ := Option.bind_eq_some.mp hv
  cases hv
  exact ⟨h1, h2, h3, h4, h5, h6, h7, h8, h9, h10, h11, hpr⟩

/-- A fully valid schema-conformant reply used as the C3 witness input. -/
def raw11 : Str := txt ("\x7b\"topic\": \"t1\", \"abstract\": \"a1\", \"introduction\": \"i1\", \"literature_review\": \"l1\", \"methodology\": \"m1\", \"analysis_and_findings\": \"f1\", \"discussion\": \"d1\", \"future_research\": \"r1\", \"conclusion\": \"c1\", \"sources\": [\"s1\", \"s2\"], \"tools_used\": [\"w\"]\x7d")

/-- The object `raw11` parses to. -/
def kvs11 : List (Str × Json) :=
  [ (txt ("topic"), Json.jstr (txt ("t1")))
  , (txt ("abstract"), Json.jstr (txt ("a1")))
  , (txt ("introduction"), Json.jstr (txt ("i1")))
  , (txt ("literature_review"), Json.jstr (txt ("l1")))
  , (txt ("methodology"), Json.jstr (txt ("m1")))
  , (txt ("analysis_and_findings"), Json.jstr (txt ("f1")))
  , (txt ("discussion"), Json.jstr (txt ("d1")))
  , (txt ("future_research"), Json.jstr (txt ("r1")))
  , (txt ("conclusion"), Json.jstr (txt ("c1")))
  , (txt ("sources"), Json.jarr [Json.jstr (txt ("s1")), Json.jstr (txt ("s2"))])
  , (txt ("tools_used"), Json.jarr [Json.jstr (txt ("w"))]) ]

/-- The document the strict path produces for `raw11`. -/
def doc11 : ResearchResponse :=
  ⟨ txt ("t1"), txt ("a1"), txt ("i1"), txt ("l1"), txt ("m1"), txt ("f1")
  , txt ("d1"), txt ("r1"), txt ("c1"), [txt ("s1"), txt ("s2")], [txt ("w")] ⟩

/-- Witness for C3 on `raw11`: the normalizer reproduces every field. -/
theorem c3_strict_parse_roundtrip_witness :
    parse_response raw11 = some doc11
  ∧ (lookupLast kvs11 (txt ("topic"))).bind asStr = some doc11.topic :=
  ⟨ (c3_strict_parse_roundtrip raw11 kvs11 doc11 (by rfl) (by rfl)).2.2.2.2.2.2.2.2.2.2.2
  , (c3_strict_parse_roundtrip raw11 kvs11 doc11 (by rfl) (by rfl)).1 ⟩

/-! ## C4 — fence wrapping: `pyStrip` toolkit -/

theorem lstrip_append (u z : Str) :
    lstrip (u ++ z) = if lstrip u = [] then lstrip z else lstrip u ++ z := by
  induction u with
  | nil => simp [lstrip]
  | cons a u' ih =>
    by_cases ha : pyWs a
    · simpa [lstrip, List.dropWhile_cons, ha] using ih
    · simp [lstrip, List.dropWhile_cons, ha]

theorem rstrip_append (u z : Str) :
    rstrip (u ++ z) = if rstrip z = [] then rstrip u else u ++ rstrip z := by
  have h := lstrip_append z.reverse u.reverse
  have hz : rstrip z = [] ↔ lstrip z.reverse = [] := by
    unfold rstrip lstrip
    exact List.reverse_eq_nil_iff
  have key : rstrip (u ++ z) = (lstrip ((u ++ z).reverse)).reverse := rfl
  rw [key, List.reverse_append, h]
  by_cases hc : lstrip z.reverse = []
  · rw [if_pos hc, if_pos (hz.mpr hc)]
    rfl
  · rw [if_neg hc, if_neg (fun hh => hc (hz.mp hh))]
    rw [List.reverse_append, List.reverse_reverse]
    rfl

theorem lstrip_eq_nil_iff (t : Str) : lstrip t = [] ↔ ∀ c ∈ t, pyWs c = true := by
  unfold lstrip
  exact List.dropWhile_eq_nil_iff

theorem rstrip_eq_nil_iff (t : Str) : rstrip t = [] ↔ ∀ c ∈ t, pyWs c = true := by
  unfold rstrip
  rw [List.reverse_eq_nil_iff, List.dropWhile_eq_nil_iff]
  constructor
  · intro h c hc
    exact h c (List.mem_reverse.mpr hc)
  · intro h c hc
    exact h c (List.mem_reverse.mp hc)

theorem lstrip_idem (t : Str) : lstrip (lstrip t) = lstrip t := by
  induction t with
  | nil => rfl
  | cons c t' ih =>
    by_cases hc : pyWs c
    · simpa [lstrip, List.dropWhile_cons, hc] using ih
    · simp [lstrip, List.dropWhile_cons, hc]

theorem rstrip_idem (t : Str) : rstrip (rstrip t) = rstrip t := by
  unfold rstrip
  rw [List.reverse_reverse]
  exact congrArg List.reverse (lstrip_idem t.reverse)

theorem rstrip_singleton (c : Char) : rstrip [c] = if pyWs c then [] else [c] := by
  by_cases hc : pyWs c
  · simp [rstrip, List.dropWhile_cons, hc]
  · simp [rstrip, List.dropWhile_cons, hc]

theorem rstrip_cons (c : Char) (u : Str) :
    rstrip (c :: u) = if rstrip u = [] then (if pyWs c then [] else [c]) else c :: rstrip u := by
  have h := rstrip_append [c] u
  rw [List.singleton_append] at h
  rw [h, rstrip_singleton]
  by_cases hc : rstrip u = []
  · simp [hc]
  · simp [hc]

theorem lstrip_rstrip_comm (t : Str) : lstrip (rstrip t) = rstrip (lstrip t) := by
  induction t with
  | nil => rfl
  | cons c t' ih =>
    by_cases hc : pyWs c
    · by_cases hr : rstrip t' = []
      · rw [rstrip_cons, if_pos hr, if_pos hc]
        have h2 : lstrip (c :: t') = lstrip t' := by simp [lstrip, List.dropWhile_cons, hc]
        rw [h2, ← ih, hr]
      · rw [rstrip_cons, if_neg hr]
        have h1 : lstrip (c :: rstrip t') = lstrip (rstrip t') := by
          simp [lstrip, List.dropWhile_cons, hc]
        have h2 : lstrip (c :: t') = lstrip t' := by simp [lstrip, List.dropWhile_cons, hc]
        rw [h1, h2, ih]
    · have h2 : lstrip (c :: t') = c :: t' := by simp [lstrip, List.dropWhile_cons, hc]
      rw [h2]
      by_cases hr : rstrip t' = []
      · rw [rstrip_cons, if_pos hr, if_neg hc]
        simp [lstrip, List.dropWhile_cons, hc]
      · rw [rstrip_cons, if_neg hr]
        simp [lstrip, List.dropWhile_cons, hc]

theorem pyStrip_eq_lstrip_rstrip (t : Str) : pyStrip t = lstrip (rstrip t) := by
  unfold pyStrip
  exact (lstrip_rstrip_comm t).symm

theorem lstrip_pyStrip (t : Str) : lstrip (pyStrip t) = pyStrip t := by
  rw [pyStrip_eq_lstrip_rstrip, lstrip_idem]

theorem rstrip_pyStrip (t : Str) : rstrip (pyStrip t) = pyStrip t := by
  unfold pyStrip
  exact rstrip_idem (lstrip t)

theorem pyStrip_idem (t : Str) : pyStrip (pyStrip t) = pyStrip t := by
  unfold pyStrip
  rw [show lstrip (rstrip (lstrip t)) = rstrip (lstrip (lstrip t)) from lstrip_rstrip_comm _,
    lstrip_idem]
  exact rstrip_idem (lstrip t)

theorem pyStrip_rstrip (t : Str) : pyStrip (rstrip t) = pyStrip t := by
  unfold pyStrip
  rw [show lstrip (rstrip t) = rstrip (lstrip t) from lstrip_rstrip_comm t]
  exact rstrip_idem (lstrip t)

theorem pyStrip_lstrip (t : Str) : pyStrip (lstrip t) = pyStrip t := by
  unfold pyStrip
  rw [lstrip_idem]

theorem pyStrip_cons_ws (c : Char) (u : Str) (hc : pyWs c = true) :
    pyStrip (c :: u) = pyStrip u := by
  unfold pyStrip
  congr 1
  simp [lstrip, List.dropWhile_cons, hc]

theorem pyStrip_append_ws (u : Str) (c : Char) (hc : pyWs c = true) :
    pyStrip (u ++ [c]) = pyStrip u := by
  rw [pyStrip_eq_lstrip_rstrip, pyStrip_eq_lstrip_rstrip]
  congr 1
  rw [rstrip_append]
  rw [rstrip_singleton, if_pos hc]
  simp

/-- A newline-free pattern is a prefix of `l ++ '\n' :: z` exactly when it
is a prefix of `l`. -/
theorem prefix_append_nl (pat l z : Str) (hn : '\n' ∉ pat) :
    pat <+: (l ++ '\n' :: z) ↔ pat <+: l := by
  induction pat generalizing l with
  | nil => simp
  | cons a pat' ih =>
    have ha : a ≠ '\n' := fun hh => hn (hh ▸ List.mem_cons_self a pat')
    have hn' : '\n' ∉ pat' := fun hm => hn (List.mem_cons_of_mem a hm)
    cases l with
    | nil =>
      simp only [List.nil_append]
      rw [List.cons_prefix_cons]
      simp [ha, List.prefix_nil]
    | cons b l' =>
      simp only [List.cons_append]
      rw [List.cons_prefix_cons, List.cons_prefix_cons]
      exact and_congr_right (fun _ => ih l' hn')

/-- A pattern of non-whitespace characters is a prefix of `p ++ w` for
all-whitespace `w` exactly when it is a prefix of `p`. -/
theorem prefix_append_allws (pat p w : Str) (hpat : ∀ c ∈ pat, pyWs c = false)
    (hw : ∀ c ∈ w, pyWs c = true) : pat <+: (p ++ w) ↔ pat <+: p := by
  induction pat generalizing p with
  | nil => simp
  | cons a pat' ih =>
    have ha : pyWs a = false := hpat a (List.mem_cons_self a pat')
    have hpat' : ∀ c ∈ pat', pyWs c = false := fun c hc => hpat c (List.mem_cons_of_mem a hc)
    cases p with
    | nil =>
      simp only [List.nil_append]
      cases w with
      | nil => simp
      | cons b w' =>
        rw [List.cons_prefix_cons]
        have hb : pyWs b = true := hw b (List.mem_cons_self b w')
        have hab : ¬ a = b := by
          intro hh
          rw [hh] at ha
          rw [ha] at hb
          simp at hb
        simp [List.prefix_nil, hab]
    | cons b p' =>
      simp only [List.cons_append]
      rw [List.cons_prefix_cons, List.cons_prefix_cons]
      exact and_congr_right (fun _ => ih p' hpat')

/-- The fence marker is a suffix of `w ++ p` for all-whitespace `w` exactly
when it is a suffix of `p`. -/
theorem bt_suffix_append_ws (w p : Str) (hw : ∀ c ∈ w, pyWs c = true) :
    (txt ("```") <:+ (w ++ p)) ↔ (txt ("```") <:+ p) := by
  induction w with
  | nil => simp
  | cons c w' ih =>
    have hc : pyWs c = true := hw c (List.mem_cons_self c w')
    have hw' : ∀ x ∈ w', pyWs x = true := fun x hx => hw x (List.mem_cons_of_mem c hx)
    simp only [List.cons_append]
    rw [List.suffix_cons_iff]
    constructor
    · rintro (heq | hs)
      · exfalso
        have : c = '`' := by
          have := congrArg (fun l => l.head?) heq
          simpa [txt] using this.symm
        rw [this] at hc
        exact absurd hc (by decide)
      · exact (ih hw').mp hs
    · intro hs
      exact Or.inr ((ih hw').mpr hs)

theorem parse_response_congr (a b : Str)
    (h : strip_code_fences a = strip_code_fences b) : parse_response a = parse_response b := by
  simp only [parse_response]
  rw [h]

/-- Stripping is the identity (up to outer whitespace) on replies that are
not themselves fenced. -/
theorem strip_of_unfenced (t : Str) (hp : ¬ txt ("```") <+: pyStrip t)
    (hs : ¬ txt ("```") <:+ pyStrip t) : strip_code_fences t = pyStrip t := by
  have hjson : ¬ txt ("```json") <+: pyStrip t := fun h =>
    hp ((by decide : txt ("```") <+: txt ("```json")).trans h)
  simp only [strip_code_fences]
  rw [if_neg hjson, if_neg hp, if_neg hs, pyStrip_idem]

/-- Stripping a reply wrapped in a tagged fence recovers the stripped
reply, whatever the reply is. -/
theorem strip_wrapJson (t : Str) :
    strip_code_fences (txt ("```json\n") ++ (t ++ txt ("\n```"))) = pyStrip t := by
  have hdec : txt ("```json\n") ++ (t ++ txt ("\n```")) =
      txt ("```json") ++ ('\n' :: (t ++ txt ("\n```"))) := by
    rw [show txt ("```json\n") = txt ("```json") ++ ['\n'] from by decide,
      List.append_assoc, List.singleton_append]
  rw [hdec]
  have hx : ('\n' : Char) :: (t ++ txt ("\n```")) = ('\n' :: t) ++ txt ("\n```") := by
    simp
  have hps : pyStrip (txt ("```json") ++ ('\n' :: (t ++ txt ("\n```")))) =
      txt ("```json") ++ ('\n' :: (t ++ txt ("\n```"))) := by
    unfold pyStrip
    rw [lstrip_append, if_neg (by decide : ¬ lstrip (txt ("```json")) = []),
      (by decide : lstrip (txt ("```json")) = txt ("```json"))]
    rw [hx, ← List.append_assoc, rstrip_append,
      if_neg (by decide : ¬ rstrip (txt ("\n```")) = []),
      (by decide : rstrip (txt ("\n```")) = txt ("\n```"))]
  have hdrop : (txt ("```json") ++ ('\n' :: (t ++ txt ("\n```")))).drop 7 =
      '\n' :: (t ++ txt ("\n```")) := by
    rw [show (7 : Nat) = (txt ("```json")).length from by decide]
    exact List.drop_left _ _
  have hc2 : ¬ txt ("```") <+: ('\n' :: (t ++ txt ("\n```"))) := by
    rw [show txt ("```") = '`' :: txt ("``") from by decide, List.cons_prefix_cons]
    rintro ⟨h, -⟩
    exact absurd h (by decide)
  have hsufdec : ('\n' : Char) :: (t ++ txt ("\n```")) =
      ('\n' :: (t ++ ['\n'])) ++ txt ("```") := by
    rw [show txt ("\n```") = '\n' :: txt ("```") from by decide]
    simp
  have hc3 : txt ("```") <:+ ('\n' :: (t ++ txt ("\n```"))) := by
    rw [hsufdec]
    exact List.suffix_append _ _
  have htake : ('\n' :: (t ++ txt ("\n```"))).take
      (('\n' :: (t ++ txt ("\n```"))).length - 3) = '\n' :: (t ++ ['\n']) := by
    rw [hsufdec]
    have hlen : ('\n' :: (t ++ ['\n'])).length =
        (('\n' :: (t ++ ['\n'])) ++ txt ("```")).length - 3 := by
      simp only [List.length_append, List.length_cons, List.length_nil,
        show (txt ("```")).length = 3 from by decide]
      omega
    rw [← hlen]
    exact List.take_left _ _
  simp only [strip_code_fences]
  rw [hps, if_pos (List.prefix_append _ _), hdrop, if_neg hc2, if_pos hc3, htake,
    pyStrip_cons_ws _ _ (by decide), pyStrip_append_ws _ _ (by decide)]

/-- Stripping a reply wrapped in an untagged fence recovers the stripped
reply, whatever the reply is. -/
theorem strip_wrapPlain (t : Str) :
    strip_code_fences (txt ("```\n") ++ (t ++ txt ("\n```"))) = pyStrip t := by
  have hdec : txt ("```\n") ++ (t ++ txt ("\n```")) =
      txt ("```") ++ ('\n' :: (t ++ txt ("\n```"))) := by
    rw [show txt ("```\n") = txt ("```") ++ ['\n'] from by decide,
      List.append_assoc, List.singleton_append]
  rw [hdec]
  have hx : ('\n' : Char) :: (t ++ txt ("\n```")) = ('\n' :: t) ++ txt ("\n```") := by
    simp
  have hps : pyStrip (txt ("```") ++ ('\n' :: (t ++ txt ("\n```")))) =
      txt ("```") ++ ('\n' :: (t ++ txt ("\n```"))) := by
    unfold pyStrip
    rw [lstrip_append, if_neg (by decide : ¬ lstrip (txt ("```")) = []),
      (by decide : lstrip (txt ("```")) = txt ("```"))]
    rw [hx, ← List.append_assoc, rstrip_append,
      if_neg (by decide : ¬ rstrip (txt ("\n```")) = []),
      (by decide : rstrip (txt ("\n```")) = txt ("\n```"))]
  have hc1 : ¬ txt ("```json") <+: (txt ("```") ++ ('\n' :: (t ++ txt ("\n```")))) := by
    rw [show txt ("```json") = '`' :: '`' :: '`' :: 'j' :: txt ("son") from by decide,
      show txt ("```") ++ ('\n' :: (t ++ txt ("\n```"))) =
        '`' :: '`' :: '`' :: '\n' :: (t ++ txt ("\n```")) from by simp [txt]]
    rw [List.cons_prefix_cons, List.cons_prefix_cons, List.cons_prefix_cons,
      List.cons_prefix_cons]
    rintro ⟨-, -, -, h, -⟩
    exact absurd h (by decide)
  have hdrop : (txt ("```") ++ ('\n' :: (t ++ txt ("\n```")))).drop 3 =
      '\n' :: (t ++ txt ("\n```")) := by
    rw [show (3 : Nat) = (txt ("```")).length from by decide]
    exact List.drop_left _ _
  have hsufdec : ('\n' : Char) :: (t ++ txt ("\n```")) =
      ('\n' :: (t ++ ['\n'])) ++ txt ("```") := by
    rw [show txt ("\n```") = '\n' :: txt ("```") from by decide]
    simp
  have hc3 : txt ("```") <:+ ('\n' :: (t ++ txt ("\n```"))) := by
    rw [hsufdec]
    exact List.suffix_append _ _
  have htake : ('\n' :: (t ++ txt ("\n```"))).take
      (('\n' :: (t ++ txt ("\n```"))).length - 3) = '\n' :: (t ++ ['\n']) := by
    rw [hsufdec]
    have hlen : ('\n' :: (t ++ ['\n'])).length =
        (('\n' :: (t ++ ['\n'])) ++ txt ("```")).length - 3 := by
      simp only [List.length_append, List.length_cons, List.length_nil,
        show (txt ("```")).length = 3 from by decide]
      omega
    rw [← hlen]
    exact List.take_left _ _
  simp only [strip_code_fences]
  rw [hps, if_neg hc1, if_pos (List.prefix_append _ _), hdrop, if_pos hc3, htake,
    pyStrip_cons_ws _ _ (by decide), pyStrip_append_ws _ _ (by decide)]

/-- Any text is its right-stripped part followed by trailing whitespace. -/
theorem eq_rstrip_append_ws (l : Str) :
    l = rstrip l ++ (l.reverse.takeWhile pyWs).reverse
    ∧ ∀ c ∈ (l.reverse.takeWhile pyWs).reverse, pyWs c = true := by
  constructor
  · conv_lhs => rw [← List.reverse_reverse l,
      ← List.takeWhile_append_dropWhile pyWs l.reverse]
    rw [List.reverse_append]
    rfl
  · intro c hc
    exact List.mem_takeWhile_imp (List.mem_reverse.mp hc)

/-- Any text is leading whitespace followed by its left-stripped part. -/
theorem eq_ws_append_lstrip (l : Str) :
    l = l.takeWhile pyWs ++ lstrip l ∧ ∀ c ∈ l.takeWhile pyWs, pyWs c = true :=
  ⟨(List.takeWhile_append_dropWhile pyWs l).symm, fun _ hc => List.mem_takeWhile_imp hc⟩

/-- Stripping a reply with only the opening fence added recovers the
stripped reply, provided the reply does not itself end with a fence. -/
theorem strip_openFence (t : Str) (hs : ¬ txt ("```") <:+ pyStrip t) :
    strip_code_fences (txt ("```json\n") ++ t) = pyStrip t := by
  have hls : lstrip (txt ("```json\n") ++ t) = txt ("```json\n") ++ t := by
    rw [lstrip_append, if_neg (by decide : ¬ lstrip (txt ("```json\n")) = []),
      (by decide : lstrip (txt ("```json\n")) = txt ("```json\n"))]
  by_cases hr : rstrip t = []
  · have hps : pyStrip (txt ("```json\n") ++ t) = txt ("```json") := by
      unfold pyStrip
      rw [hls, rstrip_append, if_pos hr,
        (by decide : rstrip (txt ("```json\n")) = txt ("```json"))]
    have hrhs : pyStrip t = [] := by
      rw [pyStrip_eq_lstrip_rstrip, hr]
      rfl
    simp only [strip_code_fences]
    rw [hps, if_pos (by decide : txt ("```json") <+: txt ("```json")),
      (by decide : (txt ("```json")).drop 7 = ([] : Str)),
      if_neg (by decide : ¬ txt ("```") <+: ([] : Str)),
      if_neg (by decide : ¬ txt ("```") <:+ ([] : Str)), hrhs]
    rfl
  · have hps : pyStrip (txt ("```json\n") ++ t) =
        txt ("```json") ++ ('\n' :: rstrip t) := by
      unfold pyStrip
      rw [hls, rstrip_append, if_neg hr,
        show txt ("```json\n") = txt ("```json") ++ ['\n'] from by decide,
        List.append_assoc, List.singleton_append]
    have hdrop : (txt ("```json") ++ ('\n' :: rstrip t)).drop 7 = '\n' :: rstrip t := by
      rw [show (7 : Nat) = (txt ("```json")).length from by decide]
      exact List.drop_left _ _
    have hc2 : ¬ txt ("```") <+: ('\n' :: rstrip t) := by
      rw [show txt ("```") = '`' :: txt ("``") from by decide, List.cons_prefix_cons]
      rintro ⟨h, -⟩
      exact absurd h (by decide)
    have hc3 : ¬ txt ("```") <:+ ('\n' :: rstrip t) := by
      rw [List.suffix_cons_iff]
      rintro (heq | hsu)
      · have := congrArg (fun l => l.head?) heq
        simp [txt] at this
      · obtain ⟨hdec, hws⟩ := eq_ws_append_lstrip (rstrip t)
        rw [hdec] at hsu
        rw [show lstrip (rstrip t) = pyStrip t from (pyStrip_eq_lstrip_rstrip t).symm] at hsu
        exact hs ((bt_suffix_append_ws _ _ hws).mp hsu)
    simp only [strip_code_fences]
    rw [hps, if_pos (List.prefix_append _ _), hdrop, if_neg hc2, if_neg hc3,
      pyStrip_cons_ws _ _ (by decide), pyStrip_rstrip]

/-- Stripping a reply with only the closing fence added recovers the
stripped reply, provided the reply does not itself begin with a fence. -/
theorem strip_closeFence (t : Str) (hp : ¬ txt ("```") <+: pyStrip t) :
    strip_code_fences (t ++ txt ("\n```")) = pyStrip t := by
  by_cases hl : lstrip t = []
  · have hps : pyStrip (t ++ txt ("\n```")) = txt ("```") := by
      unfold pyStrip
      rw [lstrip_append, if_pos hl, (by decide : lstrip (txt ("\n```")) = txt ("```")),
        (by decide : rstrip (txt ("```")) = txt ("```"))]
    have hrhs : pyStrip t = [] := by
      unfold pyStrip
      rw [hl]
      rfl
    simp only [strip_code_fences]
    rw [hps, if_neg (by decide : ¬ txt ("```json") <+: txt ("```")),
      if_pos (by decide : txt ("```") <+: txt ("```")),
      (by decide : (txt ("```")).drop 3 = ([] : Str)),
      if_neg (by decide : ¬ txt ("```") <:+ ([] : Str)), hrhs]
    rfl
  · have hps : pyStrip (t ++ txt ("\n```")) = lstrip t ++ ('\n' :: txt ("```")) := by
      unfold pyStrip
      rw [lstrip_append, if_neg hl, rstrip_append,
        if_neg (by decide : ¬ rstrip (txt ("\n```")) = []),
        (by decide : rstrip (txt ("\n```")) = txt ("\n```")),
        show txt ("\n```") = '\n' :: txt ("```") from by decide]
    obtain ⟨hdec, hws⟩ := eq_rstrip_append_ws (lstrip t)
    have hpfx : ∀ pat : Str, (∀ c ∈ pat, pyWs c = false) → '\n' ∉ pat →
        ((pat <+: lstrip t ++ ('\n' :: txt ("```"))) ↔ pat <+: pyStrip t) := by
      intro pat hpat hnl
      rw [prefix_append_nl _ _ _ hnl]
      conv_lhs => rw [hdec]
      rw [show rstrip (lstrip t) = pyStrip t from rfl]
      exact prefix_append_allws _ _ _ hpat hws
    have hc1 : ¬ txt ("```json") <+: (lstrip t ++ ('\n' :: txt ("```"))) := by
      rw [hpfx _ (by decide) (by decide)]
      intro h
      exact hp ((by decide : txt ("```") <+: txt ("```json")).trans h)
    have hc2 : ¬ txt ("```") <+: (lstrip t ++ ('\n' :: txt ("```"))) := by
      rw [hpfx _ (by decide) (by decide)]
      exact hp
    have hsufdec : lstrip t ++ ('\n' :: txt ("```")) =
        (lstrip t ++ ['\n']) ++ txt ("```") := by
      simp
    have hc3 : txt ("```") <:+ (lstrip t ++ ('\n' :: txt ("```"))) := by
      rw [hsufdec]
      exact List.suffix_append _ _
    have htake : (lstrip t ++ ('\n' :: txt ("```"))).take
        ((lstrip t ++ ('\n' :: txt ("```"))).length - 3) = lstrip t ++ ['\n'] := by
      rw [hsufdec]
      have hlen : (lstrip t ++ ['\n']).length =
          ((lstrip t ++ ['\n']) ++ txt ("```")).length - 3 := by
        simp only [List.length_append, List.length_cons, List.length_nil,
          show (txt ("```")).length = 3 from by decide]
        omega
      rw [← hlen]
      exact List.take_left _ _
    simp only [strip_code_fences]
    rw [hps, if_neg hc1, if_neg hc2, if_pos hc3, htake,
      pyStrip_append_ws _ _ (by decide), pyStrip_lstrip]

/-- C4 (amended): for every reply whose stripped text neither begins nor
ends with a fence marker, wrapping it in leading/trailing code-fence
markers (tagged `json` or untagged), or adding only the opening or only the
closing fence, normalizes to the same document as the unwrapped reply. -/
theorem c4_fence_wrapping_amended (t : Str) (hp : ¬ txt ("```") <+: pyStrip t)
    (hs : ¬ txt ("```") <:+ pyStrip t) :
    parse_response (txt ("```json\n") ++ (t ++ txt ("\n```"))) = parse_response t
  ∧ parse_response (txt ("```\n") ++ (t ++ txt ("\n```"))) = parse_response t
  ∧ parse_response (txt ("```json\n") ++ t) = parse_response t
  ∧ parse_response (t ++ txt ("\n```")) = parse_response t := by
  have h5 := strip_of_unfenced t hp hs
  exact ⟨parse_response_congr _ _ (by rw [strip_wrapJson, h5]),
         parse_response_congr _ _ (by rw [strip_wrapPlain, h5]),
         parse_response_congr _ _ (by rw [strip_openFence t hs, h5]),
         parse_response_congr _ _ (by rw [strip_closeFence t hp, h5])⟩

/-- Witness for C4 (amended) at the unfenced schema-conformant reply. -/
theorem c4_fence_wrapping_amended_witness :
    parse_response (txt ("```json\n") ++ (raw11 ++ txt ("\n```"))) = parse_response raw11
  ∧ parse_response (txt ("```\n") ++ (raw11 ++ txt ("\n```"))) = parse_response raw11
  ∧ parse_response (txt ("```json\n") ++ raw11) = parse_response raw11
  ∧ parse_response (raw11 ++ txt ("\n```")) = parse_response raw11 :=
  c4_fence_wrapping_amended raw11 (by decide) (by decide)

/-- A reply that already carries its own code fence, with a topic whose
value has surrounding spaces (so that strict parsing and the regex fallback
disagree observably). -/
def fencedReply : Str :=
  txt ("```json\n")
    ++ (txt ("\x7b\"topic\":\" A \",\"abstract\":\"\",\"introduction\":\"\",\"literature_review\":\"\",\"methodology\":\"\",\"analysis_and_findings\":\"\",\"discussion\":\"\",\"future_research\":\"\",\"conclusion\":\"\",\"sources\":[],\"tools_used\":[]\x7d")
    ++ txt ("\n```"))

/-- C4 counterexample: for an already-fenced reply, wrapping it in another
fence changes the normalized document — stripping removes only one fence
layer, the strict parse then fails, and the fallback trims the topic to
`A` instead of the strict ` A `. -/
theorem c4_fenced_reply_cex :
    (parse_response fencedReply).map ResearchResponse.topic = some (txt (" A "))
  ∧ (parse_response (txt ("```json\n") ++ (fencedReply ++ txt ("\n```")))).map
      ResearchResponse.topic = some (txt ("A"))
  ∧ parse_response (txt ("```json\n") ++ (fencedReply ++ txt ("\n```"))) ≠
      parse_response fencedReply := by
  refine ⟨by decide, by decide, by decide⟩

/-! ## C2 — characterization of the tolerant extractor -/

theorem dropWhile_allws_append (w z : Str) (hw : ∀ c ∈ w, pyWs c = true) :
    (w ++ z).dropWhile pyWs = z.dropWhile pyWs := by
  induction w with
  | nil => rfl
  | cons c w' ih =>
    have hc : pyWs c = true := hw c (List.mem_cons_self c w')
    simp only [List.cons_append, List.dropWhile_cons, hc, if_pos]
    exact ih (fun x hx => hw x (List.mem_cons_of_mem c hx))

theorem closeOk_shaped (w3 post : Str) (d : Char) (hw3 : ∀ c ∈ w3, pyWs c = true)
    (hd : d = ',' ∨ d = rbrace) : closeOk (w3 ++ d :: post) = true := by
  have hdws : pyWs d = false := by
    rcases hd with rfl | rfl
    · decide
    · decide
  unfold closeOk
  rw [dropWhile_allws_append _ _ hw3]
  simp only [List.dropWhile_cons, hdws]
  rcases hd with rfl | rfl
  · simp
  · simp

theorem findClose_exact (v tail : Str) (hc : closeOk tail = true)
    (hne : ∀ a b : Str, v = a ++ '"' :: b → closeOk (b ++ '"' :: tail) = false) :
    findClose (v ++ '"' :: tail) = some v := by
  induction v with
  | nil => simp [findClose, hc]
  | cons c v' ih =>
    have ih' := ih (fun a b hab => hne (c :: a) b (by rw [hab]; rfl))
    by_cases hcq : c = '"'
    · subst hcq
      have hcl : closeOk (v' ++ '"' :: tail) = false := hne [] v' rfl
      simp [findClose, hcl, ih']
    · simp [findClose, hcq, ih']

theorem matchAt_exact (key w1 w2 R : Str)
    (hw1 : ∀ c ∈ w1, pyWs c = true) (hw2 : ∀ c ∈ w2, pyWs c = true) :
    matchAt key ('"' :: (key ++ '"' :: (w1 ++ ':' :: (w2 ++ '"' :: R)))) = findClose R := by
  have hpre : key.isPrefixOf (key ++ '"' :: (w1 ++ ':' :: (w2 ++ '"' :: R))) = true :=
    List.isPrefixOf_iff_prefix.mpr (List.prefix_append _ _)
  have hdrop : (key ++ '"' :: (w1 ++ ':' :: (w2 ++ '"' :: R))).drop key.length =
      '"' :: (w1 ++ ':' :: (w2 ++ '"' :: R)) := List.drop_left _ _
  have hdw1 : (w1 ++ ':' :: (w2 ++ '"' :: R)).dropWhile pyWs = ':' :: (w2 ++ '"' :: R) := by
    rw [dropWhile_allws_append _ _ hw1]
    simp [List.dropWhile_cons, show pyWs ':' = false from by decide]
  have hdw2 : (w2 ++ '"' :: R).dropWhile pyWs = '"' :: R := by
    rw [dropWhile_allws_append _ _ hw2]
    simp [List.dropWhile_cons, show pyWs '"' = false from by decide]
  simp only [matchAt, hpre, hdrop, hdw1, hdw2, if_true]

theorem firstMatch_append (key pre u : Str) (hpre : '"' ∉ pre) :
    firstMatch key (pre ++ u) = firstMatch key u := by
  induction pre with
  | nil => rfl
  | cons c pre' ih =>
    have hc : ¬ c = '"' := fun hcc => hpre (hcc ▸ List.mem_cons_self c pre')
    have hr : '"' ∉ pre' := fun hm => hpre (List.mem_cons_of_mem c hm)
    simp only [List.cons_append, firstMatch, matchAt, hc, if_neg, Bool.false_eq_true]
    simpa [matchAt, hc] using ih hr

theorem findBracketClose_exact (inner post : Str) (hin : ']' ∉ inner) :
    findBracketClose (inner ++ ']' :: post) = some inner := by
  induction inner with
  | nil => simp [findBracketClose]
  | cons c v' ih =>
    have hc : ¬ c = ']' := fun hcc => hin (hcc ▸ List.mem_cons_self c v')
    have hr : ']' ∉ v' := fun hm => hin (List.mem_cons_of_mem c hm)
    simp [findBracketClose, hc, ih hr]

theorem matchListAt_exact (key w1 w2 R : Str)
    (hw1 : ∀ c ∈ w1, pyWs c = true) (hw2 : ∀ c ∈ w2, pyWs c = true) :
    matchListAt key ('"' :: (key ++ '"' :: (w1 ++ ':' :: (w2 ++ '[' :: R)))) =
      findBracketClose R := by
  have hpre : key.isPrefixOf (key ++ '"' :: (w1 ++ ':' :: (w2 ++ '[' :: R))) = true :=
    List.isPrefixOf_iff_prefix.mpr (List.prefix_append _ _)
  have hdrop : (key ++ '"' :: (w1 ++ ':' :: (w2 ++ '[' :: R))).drop key.length =
      '"' :: (w1 ++ ':' :: (w2 ++ '[' :: R)) := List.drop_left _ _
  have hdw1 : (w1 ++ ':' :: (w2 ++ '[' :: R)).dropWhile pyWs = ':' :: (w2 ++ '[' :: R) := by
    rw [dropWhile_allws_append _ _ hw1]
    simp [List.dropWhile_cons, show pyWs ':' = false from by decide]
  have hdw2 : (w2 ++ '[' :: R).dropWhile pyWs = '[' :: R := by
    rw [dropWhile_allws_append _ _ hw2]
    simp [List.dropWhile_cons, show pyWs '[' = false from by decide]
  simp only [matchListAt, hpre, hdrop, hdw1, hdw2, if_true]

theorem firstListMatch_append (key pre u : Str) (hpre : '"' ∉ pre) :
    firstListMatch key (pre ++ u) = firstListMatch key u := by
  induction pre with
  | nil => rfl
  | cons c pre' ih =>
    have hc : ¬ c = '"' := fun hcc => hpre (hcc ▸ List.mem_cons_self c pre')
    have hr : '"' ∉ pre' := fun hm => hpre (List.mem_cons_of_mem c hm)
    simpa [firstListMatch, matchListAt, hc] using ih hr

theorem qcAux_append_noquote (n0 u : Str) (h : '"' ∉ n0) :
    qcAux (n0 ++ u) none = qcAux u none := by
  induction n0 with
  | nil => rfl
  | cons c rest ih =>
    have hc : ¬ c = '"' := fun hcc => h (hcc ▸ List.mem_cons_self c rest)
    have hr : '"' ∉ rest := fun hm => h (List.mem_cons_of_mem c hm)
    simpa [qcAux, hc] using ih hr

theorem qcAux_inside (a rest : Str) (acc : Str) (h : '"' ∉ a) :
    qcAux (a ++ '"' :: rest) (some acc) = (acc.reverse ++ a) :: qcAux rest none := by
  induction a generalizing acc with
  | nil => simp [qcAux]
  | cons c a' ih =>
    have hc : ¬ c = '"' := fun hcc => h (hcc ▸ List.mem_cons_self c a')
    have hr : '"' ∉ a' := fun hm => h (List.mem_cons_of_mem c hm)
    simp [qcAux, hc, ih (c :: acc) hr]

theorem matchAt_some_qkey (key t v : Str) (h : matchAt key t = some v) :
    qkey key <+: t := by
  cases t with
  | nil => simp [matchAt] at h
  | cons c r1 =>
    by_cases hc : c = '"'
    · subst hc
      by_cases hk : key.isPrefixOf r1
      · obtain ⟨tail, htail⟩ := List.isPrefixOf_iff_prefix.mp hk
        have hdrop : r1.drop key.length = tail := by
          rw [← htail]; exact List.drop_left _ _
        cases tail with
        | nil => simp [matchAt, hk, hdrop] at h
        | cons c2 r2 =>
          by_cases hc2 : c2 = '"'
          · subst hc2
            rw [← htail]
            simp only [qkey]
            exact List.cons_prefix_cons.mpr ⟨rfl,
              (List.prefix_append_right_inj key).mpr ⟨r2, rfl⟩⟩
          · simp [matchAt, hk, hdrop, hc2] at h
      · simp [matchAt, hk] at h
    · simp [matchAt, hc] at h

theorem matchListAt_some_qkey (key t v : Str) (h : matchListAt key t = some v) :
    qkey key <+: t := by
  cases t with
  | nil => simp [matchListAt] at h
  | cons c r1 =>
    by_cases hc : c = '"'
    · subst hc
      by_cases hk : key.isPrefixOf r1
      · obtain ⟨tail, htail⟩ := List.isPrefixOf_iff_prefix.mp hk
        have hdrop : r1.drop key.length = tail := by
          rw [← htail]; exact List.drop_left _ _
        cases tail with
        | nil => simp [matchListAt, hk, hdrop] at h
        | cons c2 r2 =>
          by_cases hc2 : c2 = '"'
          · subst hc2
            rw [← htail]
            simp only [qkey]
            exact List.cons_prefix_cons.mpr ⟨rfl,
              (List.prefix_append_right_inj key).mpr ⟨r2, rfl⟩⟩
          · simp [matchListAt, hk, hdrop, hc2] at h
      · simp [matchListAt, hk] at h
    · simp [matchListAt, hc] at h

theorem firstMatch_skip (key pre u : Str)
    (hfirst : ∀ i, i < pre.length → ¬ qkey key <+: (pre ++ u).drop i) :
    firstMatch key (pre ++ u) = firstMatch key u := by
  induction pre with
  | nil => rfl
  | cons c pre' ih =>
    have hm : matchAt key (c :: (pre' ++ u)) = none := by
      cases hmm : matchAt key (c :: (pre' ++ u)) with
      | none => rfl
      | some v =>
        exact absurd (matchAt_some_qkey _ _ _ hmm)
          (by simpa using hfirst 0 (Nat.succ_pos _))
    have ih' := ih (fun i hi => by
      simpa using hfirst (i + 1) (Nat.succ_lt_succ hi))
    show firstMatch key (c :: (pre' ++ u)) = firstMatch key u
    simp only [firstMatch, hm]
    exact ih'

theorem firstListMatch_skip (key pre u : Str)
    (hfirst : ∀ i, i < pre.length → ¬ qkey key <+: (pre ++ u).drop i) :
    firstListMatch key (pre ++ u) = firstListMatch key u := by
  induction pre with
  | nil => rfl
  | cons c pre' ih =>
    have hm : matchListAt key (c :: (pre' ++ u)) = none := by
      cases hmm : matchListAt key (c :: (pre' ++ u)) with
      | none => rfl
      | some v =>
        exact absurd (matchListAt_some_qkey _ _ _ hmm)
          (by simpa using hfirst 0 (Nat.succ_pos _))
    have ih' := ih (fun i hi => by
      simpa using hfirst (i + 1) (Nat.succ_lt_succ hi))
    show firstListMatch key (c :: (pre' ++ u)) = firstListMatch key u
    simp only [firstListMatch, hm]
    exact ih'

theorem firstMatch_none_qkey (key t : Str) (h : ¬ qkey key <:+: t) :
    firstMatch key t = none := by
  induction t with
  | nil => rfl
  | cons c rest ih =>
    have hm : matchAt key (c :: rest) = none := by
      cases hmm : matchAt key (c :: rest) with
      | none => rfl
      | some v => exact absurd (matchAt_some_qkey _ _ _ hmm).isInfix h
    have ih' := ih (fun hi => h (List.infix_cons hi))
    simp only [firstMatch, hm]
    exact ih'

theorem firstListMatch_none_qkey (key t : Str) (h : ¬ qkey key <:+: t) :
    firstListMatch key t = none := by
  induction t with
  | nil => rfl
  | cons c rest ih =>
    have hm : matchListAt key (c :: rest) = none := by
      cases hmm : matchListAt key (c :: rest) with
      | none => rfl
      | some v => exact absurd (matchListAt_some_qkey _ _ _ hmm).isInfix h
    have ih' := ih (fun hi => h (List.infix_cons hi))
    simp only [firstListMatch, hm]
    exact ih'

/-- C2 (amended): the tolerant extractor behaves as specified except that
the closing quote of a value need not be unescaped — the pattern stops at
the first quote followed by optional whitespace and a comma or closing
brace, escaped or not.  Stated for arbitrary raw text: every match opens
with the quoted field name, so the hypothesis that the quoted field name
starts at no earlier position pins the fragment to the first occurrence of
`"key"` in the text.  The string extractor returns the trimmed value
delimited by the first such closing quote of that fragment; the list
extractor returns every quoted chunk inside the fragment's bracket group,
trimmed; quoted chunks are the contents of consecutive quote pairs; and a
field whose quoted name occurs nowhere in the text defaults to empty text
and the empty sequence. -/
theorem c2_tolerant_extraction_amended :
    (∀ key pre v w1 w2 w3 post : Str, ∀ d : Char,
      (∀ i, i < pre.length → ¬ qkey key <+:
        (pre ++ '"' :: (key ++ '"' :: (w1 ++ ':' :: (w2 ++ '"' ::
          (v ++ '"' :: (w3 ++ d :: post)))))).drop i) →
      (∀ c ∈ w1, pyWs c = true) → (∀ c ∈ w2, pyWs c = true) → (∀ c ∈ w3, pyWs c = true) →
      (d = ',' ∨ d = rbrace) →
      (∀ a b : Str, v = a ++ '"' :: b →
        closeOk (b ++ '"' :: (w3 ++ d :: post)) = false) →
      extract_string key
        (pre ++ '"' :: (key ++ '"' :: (w1 ++ ':' :: (w2 ++ '"' ::
          (v ++ '"' :: (w3 ++ d :: post)))))) = pyStrip v)
  ∧ (∀ key pre inner w1 w2 post : Str,
      (∀ i, i < pre.length → ¬ qkey key <+:
        (pre ++ '"' :: (key ++ '"' :: (w1 ++ ':' :: (w2 ++ '[' ::
          (inner ++ ']' :: post))))).drop i) →
      (∀ c ∈ w1, pyWs c = true) → (∀ c ∈ w2, pyWs c = true) →
      ']' ∉ inner →
      extract_list key
        (pre ++ '"' :: (key ++ '"' :: (w1 ++ ':' :: (w2 ++ '[' ::
          (inner ++ ']' :: post))))) = (quotedChunks inner).map pyStrip)
  ∧ (∀ n0 a rest : Str, '"' ∉ n0 → '"' ∉ a →
      quotedChunks (n0 ++ '"' :: (a ++ '"' :: rest)) = a :: quotedChunks rest)
  ∧ (∀ key t : Str, ¬ qkey key <:+: t →
      extract_string key t = [] ∧ extract_list key t = []) := by
  refine ⟨?_, ?_, ?_, ?_⟩
  · intro key pre v w1 w2 w3 post d hfirst hw1 hw2 hw3 hd hne
    have hm : matchAt key ('"' :: (key ++ '"' :: (w1 ++ ':' :: (w2 ++ '"' ::
        (v ++ '"' :: (w3 ++ d :: post)))))) = some v := by
      rw [matchAt_exact _ _ _ _ hw1 hw2]
      exact findClose_exact _ _ (closeOk_shaped _ _ _ hw3 hd) hne
    unfold extract_string
    rw [firstMatch_skip _ _ _ hfirst]
    simp [firstMatch, hm]
  · intro key pre inner w1 w2 post hfirst hw1 hw2 hin
    have hm : matchListAt key ('"' :: (key ++ '"' :: (w1 ++ ':' :: (w2 ++ '[' ::
        (inner ++ ']' :: post))))) = some inner := by
      rw [matchListAt_exact _ _ _ _ hw1 hw2]
      exact findBracketClose_exact _ _ hin
    unfold extract_list
    rw [firstListMatch_skip _ _ _ hfirst]
    simp [firstListMatch, hm]
  · intro n0 a rest h0 ha
    unfold quotedChunks
    rw [qcAux_append_noquote _ _ h0]
    show qcAux ('"' :: (a ++ '"' :: rest)) none = _
    simp only [qcAux, if_pos]
    rw [qcAux_inside _ _ _ ha]
    simp [quotedChunks]
  · intro key t h
    exact ⟨by simp [extract_string, firstMatch_none_qkey _ _ h],
      by simp [extract_list, firstListMatch_none_qkey _ _ h]⟩

/-- A malformed multi-field reply: three well-shaped fields embedded in
broken JSON, each later field preceded by earlier quoted fields. -/
def mftext : Str :=
  txt ("\x7b\"topic\": \"Quantum Computing\", \"abstract\": \"An essay\", \"sources\": [\"a\", \"b\"], junk")

/-- Witness for C2 (amended): on a malformed multi-field text the
extractor recovers the topic, the abstract (preceded by the quoted topic
field) and the sources list (preceded by two quoted fields), while fields
whose quoted name is absent default to empty text and the empty
sequence. -/
theorem c2_tolerant_extraction_amended_witness :
    extract_string (txt ("abstract")) mftext = txt ("An essay")
  ∧ extract_list (txt ("sources")) mftext = [txt ("a"), txt ("b")]
  ∧ extract_string (txt ("topic")) mftext = txt ("Quantum Computing")
  ∧ extract_string (txt ("methodology")) mftext = []
  ∧ extract_list (txt ("tools_used")) mftext = [] := by
  have habs := (c2_tolerant_extraction_amended).1 (txt ("abstract"))
    (txt ("\x7b\"topic\": \"Quantum Computing\", ")) (txt ("An essay")) [] [' '] []
    (txt (" \"sources\": [\"a\", \"b\"], junk")) ','
    (by decide) (by decide) (by decide) (by decide) (Or.inl rfl)
    (fun a b hab => absurd
      (show '"' ∈ txt ("An essay") by
        rw [hab]; exact List.mem_append_right a (List.mem_cons_self '"' b))
      (by decide))
  have hsrc := (c2_tolerant_extraction_amended).2.1 (txt ("sources"))
    (txt ("\x7b\"topic\": \"Quantum Computing\", \"abstract\": \"An essay\", "))
    (txt ("\"a\", \"b\"")) [] [' '] (txt (", junk"))
    (by decide) (by decide) (by decide) (by decide)
  have htop := (c2_tolerant_extraction_amended).1 (txt ("topic"))
    (txt ("\x7b")) (txt ("Quantum Computing")) [] [' '] []
    (txt (" \"abstract\": \"An essay\", \"sources\": [\"a\", \"b\"], junk")) ','
    (by decide) (by decide) (by decide) (by decide) (Or.inl rfl)
    (fun a b hab => absurd
      (show '"' ∈ txt ("Quantum Computing") by
        rw [hab]; exact List.mem_append_right a (List.mem_cons_self '"' b))
      (by decide))
  have hdef := (c2_tolerant_extraction_amended).2.2.2 (txt ("methodology")) mftext (by decide)
  have hdef2 := (c2_tolerant_extraction_amended).2.2.2 (txt ("tools_used")) mftext (by decide)
  refine ⟨?_, ?_, ?_, hdef.1, hdef2.2⟩
  · rw [show mftext = txt ("\x7b\"topic\": \"Quantum Computing\", ") ++ '"' ::
      (txt ("abstract") ++ '"' :: ([] ++ ':' :: ([' '] ++ '"' :: (txt ("An essay") ++ '"' ::
      ([] ++ ',' :: txt (" \"sources\": [\"a\", \"b\"], junk")))))) from by decide]
    rw [habs]
    decide
  · rw [show mftext = txt ("\x7b\"topic\": \"Quantum Computing\", \"abstract\": \"An essay\", ") ++
      '"' :: (txt ("sources") ++ '"' :: ([] ++ ':' :: ([' '] ++ '[' ::
      (txt ("\"a\", \"b\"") ++ ']' :: txt (", junk"))))) from by decide]
    rw [hsrc]
    decide
  · rw [show mftext = txt ("\x7b") ++ '"' :: (txt ("topic") ++ '"' :: ([] ++ ':' ::
      ([' '] ++ '"' :: (txt ("Quantum Computing") ++ '"' ::
      ([] ++ ',' :: txt (" \"abstract\": \"An essay\", \"sources\": [\"a\", \"b\"], junk")))))) from by decide]
    rw [htop]
    decide

/-- C2 counterexample: the claim says the value runs up to the next
*unescaped* quote followed by a comma or closing brace, which on
`escSample` would give `say \"hi\", ok`; the extractor instead stops at the
escaped quote and returns `say \"hi\`. -/
theorem c2_unescaped_quote_cex :
    extract_string (txt ("topic")) escSample = txt ("say \\\"hi\\")
  ∧ txt ("say \\\"hi\\") ≠ pyStrip (txt ("say \\\"hi\\\", ok")) := by
  refine ⟨by decide, by decide⟩

/-! ## C6 — section labels in the rendered paper -/

theorem occIdxs_nil (pat : Str) (hp : pat ≠ []) : occIdxs pat [] = [] := by
  simp [occIdxs, hp]

theorem isPrefixOf_append_nl (pat x y : Str) (hn : '\n' ∉ pat) :
    pat.isPrefixOf (x ++ '\n' :: y) = pat.isPrefixOf x := by
  induction pat generalizing x with
  | nil => simp [List.isPrefixOf]
  | cons p ps ih =>
    have hpn : ¬ p = '\n' := fun hh => hn (hh ▸ List.mem_cons_self p ps)
    have hn' : '\n' ∉ ps := fun hm => hn (List.mem_cons_of_mem p hm)
    cases x with
    | nil =>
      simp [List.isPrefixOf, hpn]
    | cons a x' =>
      simp only [List.cons_append, List.isPrefixOf, List.append_eq]
      rw [ih x' hn']

theorem occIdxs_append_nl (pat x y : Str) (hp : pat ≠ []) (hn : '\n' ∉ pat) :
    occIdxs pat (x ++ '\n' :: y) =
      occIdxs pat x ++ (occIdxs pat y).map (· + (x.length + 1)) := by
  induction x with
  | nil =>
    have hpre : pat.isPrefixOf ('\n' :: y) = false := by
      rw [show ('\n' :: y : Str) = [] ++ '\n' :: y from rfl, isPrefixOf_append_nl _ _ _ hn]
      cases pat with
      | nil => exact absurd rfl hp
      | cons p ps => simp [List.isPrefixOf]
    simp [occIdxs, hpre, hp]
  | cons c x' ih =>
    have hpf : List.isPrefixOf pat (c :: (x' ++ '\n' :: y)) = List.isPrefixOf pat (c :: x') := by
      simpa using isPrefixOf_append_nl pat (c :: x') y hn
    simp only [List.cons_append, occIdxs, List.append_eq, hpf, ih]
    simp only [List.map_append, List.map_map, List.append_assoc, List.length_cons]
    congr 2

theorem occIdxs_cons_nl (pat y : Str) (hp : pat ≠ []) (hn : '\n' ∉ pat) :
    occIdxs pat ('\n' :: y) = (occIdxs pat y).map (· + 1) := by
  have h := occIdxs_append_nl pat [] y hp hn
  simpa [occIdxs_nil pat hp] using h

theorem occJoin_cons (pat x : Str) (xs : List Str) (hp : pat ≠ []) (hn : '\n' ∉ pat)
    (hxs : xs ≠ []) :
    occIdxs pat (joinSep nn (x :: xs)) =
      occIdxs pat x ++ (occIdxs pat (joinSep nn xs)).map (· + (x.length + 2)) := by
  obtain ⟨y, ys, rfl⟩ := List.exists_cons_of_ne_nil hxs
  show occIdxs pat (x ++ nn ++ joinSep nn (y :: ys)) = _
  rw [List.append_assoc, show nn ++ joinSep nn (y :: ys) =
    '\n' :: ('\n' :: joinSep nn (y :: ys)) from rfl]
  rw [occIdxs_append_nl pat x _ hp hn, occIdxs_cons_nl pat _ hp hn]
  rw [List.map_map]
  congr 1
  apply List.map_congr_left
  intro a _
  simp only [Function.comp]
  omega

theorem occJoin_all_nil (pat : Str) (l : List Str) (hp : pat ≠ []) (hn : '\n' ∉ pat)
    (h : ∀ x ∈ l, occIdxs pat x = []) : occIdxs pat (joinSep nn l) = [] := by
  induction l with
  | nil => exact occIdxs_nil pat hp
  | cons x xs ih =>
    cases xs with
    | nil => exact h x (List.mem_cons_self x [])
    | cons y ys =>
      rw [occJoin_cons pat x (y :: ys) hp hn (by simp)]
      rw [h x (List.mem_cons_self x _), ih (fun z hz => h z (List.mem_cons_of_mem x hz))]
      rfl

theorem offs_append (l1 l2 : List Str) : offs (l1 ++ l2) = offs l1 + offs l2 := by
  induction l1 with
  | nil => simp [offs]
  | cons x xs ih =>
    simp [offs, ih]
    omega

theorem occJoin_split (pat : Str) (pre : List Str) (x : Str) (rest : List Str)
    (hp : pat ≠ []) (hn : '\n' ∉ pat)
    (hpre : ∀ y ∈ pre, occIdxs pat y = []) (hrest : ∀ y ∈ rest, occIdxs pat y = []) :
    occIdxs pat (joinSep nn (pre ++ x :: rest)) = (occIdxs pat x).map (· + offs pre) := by
  induction pre with
  | nil =>
    simp only [List.nil_append, offs]
    cases rest with
    | nil => simp [joinSep]
    | cons r rs =>
      rw [occJoin_cons pat x (r :: rs) hp hn (by simp)]
      rw [occJoin_all_nil pat (r :: rs) hp hn hrest]
      simp
  | cons p pre' ih =>
    rw [show ((p :: pre') ++ x :: rest : List Str) = p :: (pre' ++ x :: rest) from rfl]
    rw [occJoin_cons pat p (pre' ++ x :: rest) hp hn (by simp)]
    rw [hpre p (List.mem_cons_self p pre'),
      ih (fun z hz => hpre z (List.mem_cons_of_mem p hz))]
    simp only [List.nil_append, List.map_map, offs]
    apply List.map_congr_left
    intro a _
    simp only [Function.comp]
    omega

theorem occJoin_split2 (pat : Str) (pre : List Str) (x : Str) (mid : List Str) (y : Str)
    (rest : List Str) (hp : pat ≠ []) (hn : '\n' ∉ pat)
    (hpre : ∀ z ∈ pre, occIdxs pat z = []) (hmid : ∀ z ∈ mid, occIdxs pat z = [])
    (hrest : ∀ z ∈ rest, occIdxs pat z = []) :
    occIdxs pat (joinSep nn (pre ++ x :: (mid ++ y :: rest))) =
      (occIdxs pat x).map (· + offs pre)
        ++ (occIdxs pat y).map (· + (offs pre + x.length + 2 + offs mid)) := by
  induction pre with
  | nil =>
    simp only [List.nil_append, offs]
    rw [occJoin_cons pat x (mid ++ y :: rest) hp hn (by cases mid <;> simp)]
    rw [occJoin_split pat mid y rest hp hn hmid hrest]
    simp only [List.map_map]
    congr 1
    · simp
    · apply List.map_congr_left
      intro a _
      simp only [Function.comp]
      omega
  | cons p pre' ih =>
    rw [show ((p :: pre') ++ x :: (mid ++ y :: rest) : List Str) =
      p :: (pre' ++ x :: (mid ++ y :: rest)) from rfl]
    rw [occJoin_cons pat p _ hp hn (by cases pre' <;> simp)]
    rw [hpre p (List.mem_cons_self p pre'),
      ih (fun z hz => hpre z (List.mem_cons_of_mem p hz))]
    simp only [List.nil_append, List.map_append, List.map_map, offs]
    congr 1
    · apply List.map_congr_left
      intro a _
      simp only [Function.comp]
      omega
    · apply List.map_congr_left
      intro a _
      simp only [Function.comp]
      omega

/-- Each rendered non-heading fragment carries no occurrence of the label,
unpacked from the `contentItems` hypothesis. -/
theorem content_occ (lab : Str) (r : ResearchResponse)
    (H : ∀ x ∈ contentItems r, occIdxs lab x = []) :
    occIdxs lab (r.topic.map Char.toUpper) = []
  ∧ occIdxs lab r.abstract = [] ∧ occIdxs lab r.introduction = []
  ∧ occIdxs lab r.literature_review = [] ∧ occIdxs lab r.methodology = []
  ∧ occIdxs lab r.analysis_and_findings = [] ∧ occIdxs lab r.discussion = []
  ∧ occIdxs lab r.future_research = [] ∧ occIdxs lab r.conclusion = []
  ∧ (∀ y ∈ srcLines r.sources, occIdxs lab y = [])
  ∧ (∀ y ∈ toolLines r.tools_used, occIdxs lab y = []) := by
  have hmem : ∀ x : Str, x ∈ ([r.topic.map Char.toUpper, r.abstract, r.introduction,
      r.literature_review, r.methodology, r.analysis_and_findings, r.discussion,
      r.future_research, r.conclusion] : List Str) → x ∈ contentItems r :=
    fun x hx => List.mem_append_left _ (List.mem_append_left _ hx)
  refine ⟨H _ (hmem _ (by simp)), H _ (hmem _ (by simp)), H _ (hmem _ (by simp)),
    H _ (hmem _ (by simp)), H _ (hmem _ (by simp)), H _ (hmem _ (by simp)),
    H _ (hmem _ (by simp)), H _ (hmem _ (by simp)), H _ (hmem _ (by simp)),
    fun y hy => H y (List.mem_append_left _ (List.mem_append_right _ hy)),
    fun y hy => H y (List.mem_append_right _ hy)⟩


/-- C6 (amended): for every document none of whose rendered non-heading
fragments contains a section label as a substring, the rendered paper
contains each of the eight labels at exactly one position — except
METHODOLOGY, which also occurs a second time inside the fixed
`RESEARCH METHODOLOGY & TOOLS` heading — and the eight first occurrences
appear in document order, before the second METHODOLOGY occurrence. -/
theorem c6_labels_amended (r : ResearchResponse)
    (H : ∀ lab ∈ labels8, ∀ x ∈ contentItems r, occIdxs lab x = []) :
    ∃ i1 i2 i3 i4 i5 i6 i7 i8 j : Nat,
      occIdxs (txt ("ABSTRACT")) (build_paper_text r) = [i1]
    ∧ occIdxs (txt ("INTRODUCTION")) (build_paper_text r) = [i2]
    ∧ occIdxs (txt ("LITERATURE REVIEW")) (build_paper_text r) = [i3]
    ∧ occIdxs (txt ("METHODOLOGY")) (build_paper_text r) = [i4, j]
    ∧ occIdxs (txt ("ANALYSIS AND FINDINGS")) (build_paper_text r) = [i5]
    ∧ occIdxs (txt ("DISCUSSION")) (build_paper_text r) = [i6]
    ∧ occIdxs (txt ("FUTURE RESEARCH")) (build_paper_text r) = [i7]
    ∧ occIdxs (txt ("CONCLUSION")) (build_paper_text r) = [i8]
    ∧ i1 < i2 ∧ i2 < i3 ∧ i3 < i4 ∧ i4 < i5 ∧ i5 < i6 ∧ i6 < i7 ∧ i7 < i8 ∧ i8 < j := by
  have hR : build_paper_text r = joinSep nn (r.topic.map Char.toUpper :: txt ("\nABSTRACT\n") :: r.abstract :: txt ("\nINTRODUCTION\n") :: r.introduction :: txt ("\nLITERATURE REVIEW\n") :: r.literature_review :: txt ("\nMETHODOLOGY\n") :: r.methodology :: txt ("\nANALYSIS AND FINDINGS\n") :: r.analysis_and_findings :: txt ("\nDISCUSSION\n") :: r.discussion :: txt ("\nFUTURE RESEARCH\n") :: r.future_research :: txt ("\nCONCLUSION\n") :: r.conclusion :: txt ("\nREFERENCES\n") :: (srcLines r.sources ++ txt ("\nRESEARCH METHODOLOGY & TOOLS\n") :: toolLines r.tools_used)) := by
    simp [build_paper_text, List.append_assoc]

  obtain ⟨qA0, qA1, qA2, qA3, qA4, qA5, qA6, qA7, qA8, qA9, qA10⟩ := content_occ (txt ("ABSTRACT")) r (H _ (by decide))
  obtain ⟨qI0, qI1, qI2, qI3, qI4, qI5, qI6, qI7, qI8, qI9, qI10⟩ := content_occ (txt ("INTRODUCTION")) r (H _ (by decide))
  obtain ⟨qL0, qL1, qL2, qL3, qL4, qL5, qL6, qL7, qL8, qL9, qL10⟩ := content_occ (txt ("LITERATURE REVIEW")) r (H _ (by decide))
  obtain ⟨qM0, qM1, qM2, qM3, qM4, qM5, qM6, qM7, qM8, qM9, qM10⟩ := content_occ (txt ("METHODOLOGY")) r (H _ (by decide))
  obtain ⟨qF0, qF1, qF2, qF3, qF4, qF5, qF6, qF7, qF8, qF9, qF10⟩ := content_occ (txt ("ANALYSIS AND FINDINGS")) r (H _ (by decide))
  obtain ⟨qD0, qD1, qD2, qD3, qD4, qD5, qD6, qD7, qD8, qD9, qD10⟩ := content_occ (txt ("DISCUSSION")) r (H _ (by decide))
  obtain ⟨qR0, qR1, qR2, qR3, qR4, qR5, qR6, qR7, qR8, qR9, qR10⟩ := content_occ (txt ("FUTURE RESEARCH")) r (H _ (by decide))
  obtain ⟨qC0, qC1, qC2, qC3, qC4, qC5, qC6, qC7, qC8, qC9, qC10⟩ := content_occ (txt ("CONCLUSION")) r (H _ (by decide))
  have hpre1 : ∀ y ∈ ([r.topic.map Char.toUpper] : List Str), occIdxs (txt ("ABSTRACT")) y = [] := by
    simp only [List.forall_mem_cons]
    exact ⟨qA0, List.forall_mem_nil _⟩
  have hrest1 : ∀ y ∈ (r.abstract :: txt ("\nINTRODUCTION\n") :: r.introduction :: txt ("\nLITERATURE REVIEW\n") :: r.literature_review :: txt ("\nMETHODOLOGY\n") :: r.methodology :: txt ("\nANALYSIS AND FINDINGS\n") :: r.analysis_and_findings :: txt ("\nDISCUSSION\n") :: r.discussion :: txt ("\nFUTURE RESEARCH\n") :: r.future_research :: txt ("\nCONCLUSION\n") :: r.conclusion :: txt ("\nREFERENCES\n") :: (srcLines r.sources ++ txt ("\nRESEARCH METHODOLOGY & TOOLS\n") :: toolLines r.tools_used) : List Str), occIdxs (txt ("ABSTRACT")) y = [] := by
    simp only [List.forall_mem_cons, List.forall_mem_append]
    exact ⟨qA1, (by decide), qA2, (by decide), qA3, (by decide), qA4, (by decide), qA5, (by decide), qA6, (by decide), qA7, (by decide), qA8, (by decide), qA9, (by decide), qA10⟩
  have e1 : occIdxs (txt ("ABSTRACT")) (build_paper_text r) =
      (occIdxs (txt ("ABSTRACT")) (txt ("\nABSTRACT\n"))).map (· + offs ([r.topic.map Char.toUpper])) := by
    rw [hR]
    exact occJoin_split (txt ("ABSTRACT")) ([r.topic.map Char.toUpper]) (txt ("\nABSTRACT\n")) (r.abstract :: txt ("\nINTRODUCTION\n") :: r.introduction :: txt ("\nLITERATURE REVIEW\n") :: r.literature_review :: txt ("\nMETHODOLOGY\n") :: r.methodology :: txt ("\nANALYSIS AND FINDINGS\n") :: r.analysis_and_findings :: txt ("\nDISCUSSION\n") :: r.discussion :: txt ("\nFUTURE RESEARCH\n") :: r.future_research :: txt ("\nCONCLUSION\n") :: r.conclusion :: txt ("\nREFERENCES\n") :: (srcLines r.sources ++ txt ("\nRESEARCH METHODOLOGY & TOOLS\n") :: toolLines r.tools_used))
      (by decide) (by decide) hpre1 hrest1
  rw [show occIdxs (txt ("ABSTRACT")) (txt ("\nABSTRACT\n")) = [1] from by decide] at e1
  simp only [List.map_cons, List.map_nil] at e1
  have hpre2 : ∀ y ∈ ([r.topic.map Char.toUpper, txt ("\nABSTRACT\n"), r.abstract] : List Str), occIdxs (txt ("INTRODUCTION")) y = [] := by
    simp only [List.forall_mem_cons]
    exact ⟨qI0, (by decide), qI1, List.forall_mem_nil _⟩
  have hrest2 : ∀ y ∈ (r.introduction :: txt ("\nLITERATURE REVIEW\n") :: r.literature_review :: txt ("\nMETHODOLOGY\n") :: r.methodology :: txt ("\nANALYSIS AND FINDINGS\n") :: r.analysis_and_findings :: txt ("\nDISCUSSION\n") :: r.discussion :: txt ("\nFUTURE RESEARCH\n") :: r.future_research :: txt ("\nCONCLUSION\n") :: r.conclusion :: txt ("\nREFERENCES\n") :: (srcLines r.sources ++ txt ("\nRESEARCH METHODOLOGY & TOOLS\n") :: toolLines r.tools_used) : List Str), occIdxs (txt ("INTRODUCTION")) y = [] := by
    simp only [List.forall_mem_cons, List.forall_mem_append]
    exact ⟨qI2, (by decide), qI3, (by decide), qI4, (by decide), qI5, (by decide), qI6, (by decide), qI7, (by decide), qI8, (by decide), qI9, (by decide), qI10⟩
  have e2 : occIdxs (txt ("INTRODUCTION")) (build_paper_text r) =
      (occIdxs (txt ("INTRODUCTION")) (txt ("\nINTRODUCTION\n"))).map (· + offs ([r.topic.map Char.toUpper, txt ("\nABSTRACT\n"), r.abstract])) := by
    rw [hR]
    exact occJoin_split (txt ("INTRODUCTION")) ([r.topic.map Char.toUpper, txt ("\nABSTRACT\n"), r.abstract]) (txt ("\nINTRODUCTION\n")) (r.introduction :: txt ("\nLITERATURE REVIEW\n") :: r.literature_review :: txt ("\nMETHODOLOGY\n") :: r.methodology :: txt ("\nANALYSIS AND FINDINGS\n") :: r.analysis_and_findings :: txt ("\nDISCUSSION\n") :: r.discussion :: txt ("\nFUTURE RESEARCH\n") :: r.future_research :: txt ("\nCONCLUSION\n") :: r.conclusion :: txt ("\nREFERENCES\n") :: (srcLines r.sources ++ txt ("\nRESEARCH METHODOLOGY & TOOLS\n") :: toolLines r.tools_used))
      (by decide) (by decide) hpre2 hrest2
  rw [show occIdxs (txt ("INTRODUCTION")) (txt ("\nINTRODUCTION\n")) = [1] from by decide] at e2
  simp only [List.map_cons, List.map_nil] at e2
  have hpre3 : ∀ y ∈ ([r.topic.map Char.toUpper, txt ("\nABSTRACT\n"), r.abstract, txt ("\nINTRODUCTION\n"), r.introduction] : List Str), occIdxs (txt ("LITERATURE REVIEW")) y = [] := by
    simp only [List.forall_mem_cons]
    exact ⟨qL0, (by decide), qL1, (by decide), qL2, List.forall_mem_nil _⟩
  have hrest3 : ∀ y ∈ (r.literature_review :: txt ("\nMETHODOLOGY\n") :: r.methodology :: txt ("\nANALYSIS AND FINDINGS\n") :: r.analysis_and_findings :: txt ("\nDISCUSSION\n") :: r.discussion :: txt ("\nFUTURE RESEARCH\n") :: r.future_research :: txt ("\nCONCLUSION\n") :: r.conclusion :: txt ("\nREFERENCES\n") :: (srcLines r.sources ++ txt ("\nRESEARCH METHODOLOGY & TOOLS\n") :: toolLines r.tools_used) : List Str), occIdxs (txt ("LITERATURE REVIEW")) y = [] := by
    simp only [List.forall_mem_cons, List.forall_mem_append]
    exact ⟨qL3, (by decide), qL4, (by decide), qL5, (by decide), qL6, (by decide), qL7, (by decide), qL8, (by decide), qL9, (by decide), qL10⟩
  have e3 : occIdxs (txt ("LITERATURE REVIEW")) (build_paper_text r) =
      (occIdxs (txt ("LITERATURE REVIEW")) (txt ("\nLITERATURE REVIEW\n"))).map (· + offs ([r.topic.map Char.toUpper, txt ("\nABSTRACT\n"), r.abstract, txt ("\nINTRODUCTION\n"), r.introduction])) := by
    rw [hR]
    exact occJoin_split (txt ("LITERATURE REVIEW")) ([r.topic.map Char.toUpper, txt ("\nABSTRACT\n"), r.abstract, txt ("\nINTRODUCTION\n"), r.introduction]) (txt ("\nLITERATURE REVIEW\n")) (r.literature_review :: txt ("\nMETHODOLOGY\n") :: r.methodology :: txt ("\nANALYSIS AND FINDINGS\n") :: r.analysis_and_findings :: txt ("\nDISCUSSION\n") :: r.discussion :: txt ("\nFUTURE RESEARCH\n") :: r.future_research :: txt ("\nCONCLUSION\n") :: r.conclusion :: txt ("\nREFERENCES\n") :: (srcLines r.sources ++ txt ("\nRESEARCH METHODOLOGY & TOOLS\n") :: toolLines r.tools_used))
      (by decide) (by decide) hpre3 hrest3
  rw [show occIdxs (txt ("LITERATURE REVIEW")) (txt ("\nLITERATURE REVIEW\n")) = [1] from by decide] at e3
  simp only [List.map_cons, List.map_nil] at e3
  have hpre4 : ∀ y ∈ ([r.topic.map Char.toUpper, txt ("\nABSTRACT\n"), r.abstract, txt ("\nINTRODUCTION\n"), r.introduction, txt ("\nLITERATURE REVIEW\n"), r.literature_review] : List Str), occIdxs (txt ("METHODOLOGY")) y = [] := by
    simp only [List.forall_mem_cons]
    exact ⟨qM0, (by decide), qM1, (by decide), qM2, (by decide), qM3, List.forall_mem_nil _⟩
  have hmid4 : ∀ y ∈ (([r.methodology, txt ("\nANALYSIS AND FINDINGS\n"), r.analysis_and_findings, txt ("\nDISCUSSION\n"), r.discussion, txt ("\nFUTURE RESEARCH\n"), r.future_research, txt ("\nCONCLUSION\n"), r.conclusion, txt ("\nREFERENCES\n")] ++ srcLines r.sources) : List Str), occIdxs (txt ("METHODOLOGY")) y = [] := by
    simp only [List.forall_mem_cons, List.forall_mem_append]
    exact ⟨⟨qM4, (by decide), qM5, (by decide), qM6, (by decide), qM7, (by decide), qM8,
      (by decide), List.forall_mem_nil _⟩, qM9⟩
  have e4 : occIdxs (txt ("METHODOLOGY")) (build_paper_text r) =
      (occIdxs (txt ("METHODOLOGY")) (txt ("\nMETHODOLOGY\n"))).map (· + offs ([r.topic.map Char.toUpper, txt ("\nABSTRACT\n"), r.abstract, txt ("\nINTRODUCTION\n"), r.introduction, txt ("\nLITERATURE REVIEW\n"), r.literature_review]))
        ++ (occIdxs (txt ("METHODOLOGY")) (txt ("\nRESEARCH METHODOLOGY & TOOLS\n"))).map
          (· + (offs ([r.topic.map Char.toUpper, txt ("\nABSTRACT\n"), r.abstract, txt ("\nINTRODUCTION\n"), r.introduction, txt ("\nLITERATURE REVIEW\n"), r.literature_review]) + (txt ("\nMETHODOLOGY\n")).length + 2 + offs (([r.methodology, txt ("\nANALYSIS AND FINDINGS\n"), r.analysis_and_findings, txt ("\nDISCUSSION\n"), r.discussion, txt ("\nFUTURE RESEARCH\n"), r.future_research, txt ("\nCONCLUSION\n"), r.conclusion, txt ("\nREFERENCES\n")] ++ srcLines r.sources)))) := by
    rw [hR]
    exact occJoin_split2 (txt ("METHODOLOGY")) ([r.topic.map Char.toUpper, txt ("\nABSTRACT\n"), r.abstract, txt ("\nINTRODUCTION\n"), r.introduction, txt ("\nLITERATURE REVIEW\n"), r.literature_review]) (txt ("\nMETHODOLOGY\n")) (([r.methodology, txt ("\nANALYSIS AND FINDINGS\n"), r.analysis_and_findings, txt ("\nDISCUSSION\n"), r.discussion, txt ("\nFUTURE RESEARCH\n"), r.future_research, txt ("\nCONCLUSION\n"), r.conclusion, txt ("\nREFERENCES\n")] ++ srcLines r.sources))
      (txt ("\nRESEARCH METHODOLOGY & TOOLS\n")) (toolLines r.tools_used)
      (by decide) (by decide) hpre4 hmid4 qM10
  rw [show occIdxs (txt ("METHODOLOGY")) (txt ("\nMETHODOLOGY\n")) = [1] from by decide,
    show occIdxs (txt ("METHODOLOGY")) (txt ("\nRESEARCH METHODOLOGY & TOOLS\n")) = [10] from by decide] at e4
  simp only [List.map_cons, List.map_nil, List.cons_append, List.nil_append] at e4
  have hpre5 : ∀ y ∈ ([r.topic.map Char.toUpper, txt ("\nABSTRACT\n"), r.abstract, txt ("\nINTRODUCTION\n"), r.introduction, txt ("\nLITERATURE REVIEW\n"), r.literature_review, txt ("\nMETHODOLOGY\n"), r.methodology] : List Str), occIdxs (txt ("ANALYSIS AND FINDINGS")) y = [] := by
    simp only [List.forall_mem_cons]
    exact ⟨qF0, (by decide), qF1, (by decide), qF2, (by decide), qF3, (by decide), qF4, List.forall_mem_nil _⟩
  have hrest5 : ∀ y ∈ (r.analysis_and_findings :: txt ("\nDISCUSSION\n") :: r.discussion :: txt ("\nFUTURE RESEARCH\n") :: r.future_research :: txt ("\nCONCLUSION\n") :: r.conclusion :: txt ("\nREFERENCES\n") :: (srcLines r.sources ++ txt ("\nRESEARCH METHODOLOGY & TOOLS\n") :: toolLines r.tools_used) : List Str), occIdxs (txt ("ANALYSIS AND FINDINGS")) y = [] := by
    simp only [List.forall_mem_cons, List.forall_mem_append]
    exact ⟨qF5, (by decide), qF6, (by decide), qF7, (by decide), qF8, (by decide), qF9, (by decide), qF10⟩
  have e5 : occIdxs (txt ("ANALYSIS AND FINDINGS")) (build_paper_text r) =
      (occIdxs (txt ("ANALYSIS AND FINDINGS")) (txt ("\nANALYSIS AND FINDINGS\n"))).map (· + offs ([r.topic.map Char.toUpper, txt ("\nABSTRACT\n"), r.abstract, txt ("\nINTRODUCTION\n"), r.introduction, txt ("\nLITERATURE REVIEW\n"), r.literature_review, txt ("\nMETHODOLOGY\n"), r.methodology])) := by
    rw [hR]
    exact occJoin_split (txt ("ANALYSIS AND FINDINGS")) ([r.topic.map Char.toUpper, txt ("\nABSTRACT\n"), r.abstract, txt ("\nINTRODUCTION\n"), r.introduction, txt ("\nLITERATURE REVIEW\n"), r.literature_review, txt ("\nMETHODOLOGY\n"), r.methodology]) (txt ("\nANALYSIS AND FINDINGS\n")) (r.analysis_and_findings :: txt ("\nDISCUSSION\n") :: r.discussion :: txt ("\nFUTURE RESEARCH\n") :: r.future_research :: txt ("\nCONCLUSION\n") :: r.conclusion :: txt ("\nREFERENCES\n") :: (srcLines r.sources ++ txt ("\nRESEARCH METHODOLOGY & TOOLS\n") :: toolLines r.tools_used))
      (by decide) (by decide) hpre5 hrest5
  rw [show occIdxs (txt ("ANALYSIS AND FINDINGS")) (txt ("\nANALYSIS AND FINDINGS\n")) = [1] from by decide] at e5
  simp only [List.map_cons, List.map_nil] at e5
  have hpre6 : ∀ y ∈ ([r.topic.map Char.toUpper, txt ("\nABSTRACT\n"), r.abstract, txt ("\nINTRODUCTION\n"), r.introduction, txt ("\nLITERATURE REVIEW\n"), r.literature_review, txt ("\nMETHODOLOGY\n"), r.methodology, txt ("\nANALYSIS AND FINDINGS\n"), r.analysis_and_findings] : List Str), occIdxs (txt ("DISCUSSION")) y = [] := by
    simp only [List.forall_mem_cons]
    exact ⟨qD0, (by decide), qD1, (by decide), qD2, (by decide), qD3, (by decide), qD4, (by decide), qD5, List.forall_mem_nil _⟩
  have hrest6 : ∀ y ∈ (r.discussion :: txt ("\nFUTURE RESEARCH\n") :: r.future_research :: txt ("\nCONCLUSION\n") :: r.conclusion :: txt ("\nREFERENCES\n") :: (srcLines r.sources ++ txt ("\nRESEARCH METHODOLOGY & TOOLS\n") :: toolLines r.tools_used) : List Str), occIdxs (txt ("DISCUSSION")) y = [] := by
    simp only [List.forall_mem_cons, List.forall_mem_append]
    exact ⟨qD6, (by decide), qD7, (by decide), qD8, (by decide), qD9, (by decide), qD10⟩
  have e6 : occIdxs (txt ("DISCUSSION")) (build_paper_text r) =
      (occIdxs (txt ("DISCUSSION")) (txt ("\nDISCUSSION\n"))).map (· + offs ([r.topic.map Char.toUpper, txt ("\nABSTRACT\n"), r.abstract, txt ("\nINTRODUCTION\n"), r.introduction, txt ("\nLITERATURE REVIEW\n"), r.literature_review, txt ("\nMETHODOLOGY\n"), r.methodology, txt ("\nANALYSIS AND FINDINGS\n"), r.analysis_and_findings])) := by
    rw [hR]
    exact occJoin_split (txt ("DISCUSSION")) ([r.topic.map Char.toUpper, txt ("\nABSTRACT\n"), r.abstract, txt ("\nINTRODUCTION\n"), r.introduction, txt ("\nLITERATURE REVIEW\n"), r.literature_review, txt ("\nMETHODOLOGY\n"), r.methodology, txt ("\nANALYSIS AND FINDINGS\n"), r.analysis_and_findings]) (txt ("\nDISCUSSION\n")) (r.discussion :: txt ("\nFUTURE RESEARCH\n") :: r.future_research :: txt ("\nCONCLUSION\n") :: r.conclusion :: txt ("\nREFERENCES\n") :: (srcLines r.sources ++ txt ("\nRESEARCH METHODOLOGY & TOOLS\n") :: toolLines r.tools_used))
      (by decide) (by decide) hpre6 hrest6
  rw [show occIdxs (txt ("DISCUSSION")) (txt ("\nDISCUSSION\n")) = [1] from by decide] at e6
  simp only [List.map_cons, List.map_nil] at e6
  have hpre7 : ∀ y ∈ ([r.topic.map Char.toUpper, txt ("\nABSTRACT\n"), r.abstract, txt ("\nINTRODUCTION\n"), r.introduction, txt ("\nLITERATURE REVIEW\n"), r.literature_review, txt ("\nMETHODOLOGY\n"), r.methodology, txt ("\nANALYSIS AND FINDINGS\n"), r.analysis_and_findings, txt ("\nDISCUSSION\n"), r.discussion] : List Str), occIdxs (txt ("FUTURE RESEARCH")) y = [] := by
    simp only [List.forall_mem_cons]
    exact ⟨qR0, (by decide), qR1, (by decide), qR2, (by decide), qR3, (by decide), qR4, (by decide), qR5, (by decide), qR6, List.forall_mem_nil _⟩
  have hrest7 : ∀ y ∈ (r.future_research :: txt ("\nCONCLUSION\n") :: r.conclusion :: txt ("\nREFERENCES\n") :: (srcLines r.sources ++ txt ("\nRESEARCH METHODOLOGY & TOOLS\n") :: toolLines r.tools_used) : List Str), occIdxs (txt ("FUTURE RESEARCH")) y = [] := by
    simp only [List.forall_mem_cons, List.forall_mem_append]
    exact ⟨qR7, (by decide), qR8, (by decide), qR9, (by decide), qR10⟩
  have e7 : occIdxs (txt ("FUTURE RESEARCH")) (build_paper_text r) =
      (occIdxs (txt ("FUTURE RESEARCH")) (txt ("\nFUTURE RESEARCH\n"))).map (· + offs ([r.topic.map Char.toUpper, txt ("\nABSTRACT\n"), r.abstract, txt ("\nINTRODUCTION\n"), r.introduction, txt ("\nLITERATURE REVIEW\n"), r.literature_review, txt ("\nMETHODOLOGY\n"), r.methodology, txt ("\nANALYSIS AND FINDINGS\n"), r.analysis_and_findings, txt ("\nDISCUSSION\n"), r.discussion])) := by
    rw [hR]
    exact occJoin_split (txt ("FUTURE RESEARCH")) ([r.topic.map Char.toUpper, txt ("\nABSTRACT\n"), r.abstract, txt ("\nINTRODUCTION\n"), r.introduction, txt ("\nLITERATURE REVIEW\n"), r.literature_review, txt ("\nMETHODOLOGY\n"), r.methodology, txt ("\nANALYSIS AND FINDINGS\n"), r.analysis_and_findings, txt ("\nDISCUSSION\n"), r.discussion]) (txt ("\nFUTURE RESEARCH\n")) (r.future_research :: txt ("\nCONCLUSION\n") :: r.conclusion :: txt ("\nREFERENCES\n") :: (srcLines r.sources ++ txt ("\nRESEARCH METHODOLOGY & TOOLS\n") :: toolLines r.tools_used))
      (by decide) (by decide) hpre7 hrest7
  rw [show occIdxs (txt ("FUTURE RESEARCH")) (txt ("\nFUTURE RESEARCH\n")) = [1] from by decide] at e7
  simp only [List.map_cons, List.map_nil] at e7
  have hpre8 : ∀ y ∈ ([r.topic.map Char.toUpper, txt ("\nABSTRACT\n"), r.abstract, txt ("\nINTRODUCTION\n"), r.introduction, txt ("\nLITERATURE REVIEW\n"), r.literature_review, txt ("\nMETHODOLOGY\n"), r.methodology, txt ("\nANALYSIS AND FINDINGS\n"), r.analysis_and_findings, txt ("\nDISCUSSION\n"), r.discussion, txt ("\nFUTURE RESEARCH\n"), r.future_research] : List Str), occIdxs (txt ("CONCLUSION")) y = [] := by
    simp only [List.forall_mem_cons]
    exact ⟨qC0, (by decide), qC1, (by decide), qC2, (by decide), qC3, (by decide), qC4, (by decide), qC5, (by decide), qC6, (by decide), qC7, List.forall_mem_nil _⟩
  have hrest8 : ∀ y ∈ (r.conclusion :: txt ("\nREFERENCES\n") :: (srcLines r.sources ++ txt ("\nRESEARCH METHODOLOGY & TOOLS\n") :: toolLines r.tools_used) : List Str), occIdxs (txt ("CONCLUSION")) y = [] := by
    simp only [List.forall_mem_cons, List.forall_mem_append]
    exact ⟨qC8, (by decide), qC9, (by decide), qC10⟩
  have e8 : occIdxs (txt ("CONCLUSION")) (build_paper_text r) =
      (occIdxs (txt ("CONCLUSION")) (txt ("\nCONCLUSION\n"))).map (· + offs ([r.topic.map Char.toUpper, txt ("\nABSTRACT\n"), r.abstract, txt ("\nINTRODUCTION\n"), r.introduction, txt ("\nLITERATURE REVIEW\n"), r.literature_review, txt ("\nMETHODOLOGY\n"), r.methodology, txt ("\nANALYSIS AND FINDINGS\n"), r.analysis_and_findings, txt ("\nDISCUSSION\n"), r.discussion, txt ("\nFUTURE RESEARCH\n"), r.future_research])) := by
    rw [hR]
    exact occJoin_split (txt ("CONCLUSION")) ([r.topic.map Char.toUpper, txt ("\nABSTRACT\n"), r.abstract, txt ("\nINTRODUCTION\n"), r.introduction, txt ("\nLITERATURE REVIEW\n"), r.literature_review, txt ("\nMETHODOLOGY\n"), r.methodology, txt ("\nANALYSIS AND FINDINGS\n"), r.analysis_and_findings, txt ("\nDISCUSSION\n"), r.discussion, txt ("\nFUTURE RESEARCH\n"), r.future_research]) (txt ("\nCONCLUSION\n")) (r.conclusion :: txt ("\nREFERENCES\n") :: (srcLines r.sources ++ txt ("\nRESEARCH METHODOLOGY & TOOLS\n") :: toolLines r.tools_used))
      (by decide) (by decide) hpre8 hrest8
  rw [show occIdxs (txt ("CONCLUSION")) (txt ("\nCONCLUSION\n")) = [1] from by decide] at e8
  simp only [List.map_cons, List.map_nil] at e8
  refine ⟨_, _, _, _, _, _, _, _, _, e1, e2, e3, e4, e5, e6, e7, e8,
    ?_, ?_, ?_, ?_, ?_, ?_, ?_, ?_⟩ <;>
    (simp only [offs, offs_append, List.length_append, List.length_cons, List.length_map]; omega)

/-- A document with benign fields: no rendered fragment contains a section
label. -/
def doc6 : ResearchResponse :=
  ⟨ txt ("Topic"), txt ("a"), txt ("b"), txt ("c"), txt ("d"), txt ("e")
  , txt ("f"), txt ("g"), txt ("h"), [txt ("S")], [txt ("w")] ⟩

/-- C6 counterexample: even for a document with benign fields, the substring
`METHODOLOGY` occurs twice in the rendered paper — once as its own heading
and once inside the fixed `RESEARCH METHODOLOGY & TOOLS` heading — so the
labels do not each occur exactly once. -/
theorem c6_methodology_twice_cex :
    (occIdxs (txt ("METHODOLOGY")) (build_paper_text doc6)).length = 2 := by
  decide

/-- Witness for C6 (amended) at a concrete benign document. -/
theorem c6_labels_amended_witness :
    ∃ i1 i2 i3 i4 i5 i6 i7 i8 j : Nat,
      occIdxs (txt ("ABSTRACT")) (build_paper_text doc6) = [i1]
    ∧ occIdxs (txt ("INTRODUCTION")) (build_paper_text doc6) = [i2]
    ∧ occIdxs (txt ("LITERATURE REVIEW")) (build_paper_text doc6) = [i3]
    ∧ occIdxs (txt ("METHODOLOGY")) (build_paper_text doc6) = [i4, j]
    ∧ occIdxs (txt ("ANALYSIS AND FINDINGS")) (build_paper_text doc6) = [i5]
    ∧ occIdxs (txt ("DISCUSSION")) (build_paper_text doc6) = [i6]
    ∧ occIdxs (txt ("FUTURE RESEARCH")) (build_paper_text doc6) = [i7]
    ∧ occIdxs (txt ("CONCLUSION")) (build_paper_text doc6) = [i8]
    ∧ i1 < i2 ∧ i2 < i3 ∧ i3 < i4 ∧ i4 < i5 ∧ i5 < i6 ∧ i6 < i7 ∧ i7 < i8 ∧ i8 < j :=
  c6_labels_amended doc6 (by decide)
